import Mathlib

/-!
Verification development for the qudyma_db publications pipeline.

The JavaScript sources are shallowly embedded: JS strings are lists of
characters, JS `null`/`undefined` string fields are `Option`, and JS string
truthiness (`null`, `undefined` and `""` are falsy) is made explicit.  The
current pipeline is the modular one (`src/merger/PublicationMerger.js`,
`src/utils/AuthorUtils.js`, `src/parsers/CitationParser.js`,
`src/fetchers/CrossRefFetcher.js`); network calls are modelled as oracle
parameters, and configuration tables are parameters.
-/

/-- JS strings are modelled as lists of characters. -/
abbrev Str := List Char

/-- Shorthand for embedding Lean string literals as modelled JS strings. -/
def str (s : String) : Str := s.toList

/-- JS string truthiness: `null`/`undefined` and the empty string are falsy. -/
def optTruthy : Option Str → Bool
  | none => false
  | some s => !(s.isEmpty)

/-- Model of `String.prototype.trim`: drop leading and trailing whitespace. -/
def jsTrim (s : Str) : Str :=
  ((s.dropWhile Char.isWhitespace).reverse.dropWhile Char.isWhitespace).reverse

/-- Model of `String.prototype.toLowerCase` (ASCII case folding). -/
def toLowerStr (s : Str) : Str := s.map Char.toLower

/-- Model of `String.prototype.split` with a one-character separator:
`"".split(sep)` is `[""]`, separators delimit possibly empty fields. -/
def splitOnChar (sep : Char) : Str → List Str
  | [] => [[]]
  | c :: cs =>
    if c = sep then [] :: splitOnChar sep cs
    else
      match splitOnChar sep cs with
      | [] => [[c]]
      | h :: t => (c :: h) :: t

/-- Model of `Array.prototype.join(sep)`. -/
def joinSep (sep : Str) : List Str → Str
  | [] => []
  | [x] => x
  | x :: xs => x ++ sep ++ joinSep sep xs

/-- Model of `String.prototype.startsWith`. -/
def startsWithStr (s pre : Str) : Bool := pre.isPrefixOf s

/-- Model of `String.prototype.includes` (substring containment). -/
def strIncludes (s sub : Str) : Bool :=
  match s with
  | [] => sub.isEmpty
  | _ :: tl => sub.isPrefixOf s || strIncludes tl sub

/-- JS object used as a string-keyed map: overwriting insert.  Keys are kept
unique, matching JS object property semantics. -/
def objSet (m : List (Str × Str)) (k v : Str) : List (Str × Str) :=
  if m.any (fun p => p.1 == k) then
    m.map (fun p => if p.1 == k then (k, v) else p)
  else m ++ [(k, v)]

/-- JS object property read (`m[k]`), `none` for a missing property. -/
def objGet (m : List (Str × Str)) (k : Str) : Option Str :=
  (m.find? (fun p => p.1 == k)).map Prod.snd

/-- Model of `Array.prototype.sort()` on string arrays: ascending
lexicographic order (JS compares strings with `<` on code units; on the
ASCII identifiers involved this is the `List Char` lexicographic order). -/
def jsSortStr (l : List Str) : List Str := l.insertionSort (· ≤ ·)

/-- Model of `[...new Set(l)]`: deduplicate keeping first occurrences. -/
def jsSetDedup (l : List Str) : List Str :=
  l.foldl (fun acc x => if acc.contains x then acc else acc ++ [x]) []

/-- A researcher entry of the `basics.json` roster (`name`, `name_variants`). -/
structure Researcher where
  name : Str
  name_variants : List Str
deriving DecidableEq

/-- Embeds `AuthorUtils.buildNameVariantsMap` (src/utils/AuthorUtils.js):
maps every canonical name to itself and every registered variant to its
canonical name, later assignments overwriting earlier ones. -/
def buildNameVariantsMap (basics : List (Str × Researcher)) : List (Str × Str) :=
  basics.foldl
    (fun m p =>
      let m := objSet m p.2.name p.2.name
      p.2.name_variants.foldl (fun m v => objSet m v p.2.name) m)
    []

/-- The per-name substitution `nameVariantsMap[author] || author` of
`AuthorUtils.normalizeAuthorNames`: a registered variant is replaced by its
canonical form (a falsy table value falls back to the name itself). -/
def lookupOr (m : List (Str × Str)) (a : Str) : Str :=
  match objGet m a with
  | some c => if c = [] then a else c
  | none => a

/-- Embeds `AuthorUtils.normalizeAuthorNames` (src/utils/AuthorUtils.js):
split on commas, trim each name, replace registered variants by their
canonical form, join with a comma and a space.  A falsy input is returned
unchanged. -/
def normalizeAuthorNames (m : List (Str × Str)) (s : Str) : Str :=
  if s = [] then s
  else joinSep (str ", ") (((splitOnChar ',' s).map jsTrim).map (lookupOr m))

/-- Embeds `AuthorUtils.findQudymaAuthorIdsByName` (src/utils/AuthorUtils.js):
split the authors string on commas, trim, look each name up in the variant
table, and collect (deduplicated, sorted) the ids of the researchers whose
canonical name matches. -/
def findQudymaAuthorIdsByName (m : List (Str × Str))
    (basics : List (Str × Researcher)) (authorsString : Option Str) : List Str :=
  match authorsString with
  | none => []
  | some s =>
    if s = [] then []
    else
      let authors := (splitOnChar ',' s).map jsTrim
      let foundIds := authors.foldl
        (fun acc author =>
          match objGet m author with
          | some canonicalName =>
            if canonicalName = [] then acc
            else
              match basics.find? (fun p => p.2.name == canonicalName) with
              | some p => if acc.contains p.1 then acc else acc ++ [p.1]
              | none => acc
          | none => acc)
        []
      jsSortStr foundIds

/-- Fixture for the C6 counterexample: two researchers where the first
researcher has canonical name Y with registered variant X, and the second
has canonical name Z with registered variant Y (so the variant table built
by buildNameVariantsMap maps X to Y and overwrites Y to Z). -/
def basicsCexC6 : List (Str × Researcher) :=
  [(str "1", ⟨str "Y", [str "X"]⟩), (str "2", ⟨str "Z", [str "Y"]⟩)]

/-- Fixture for the C6 witness: the variant table of the spec example,
registering J. Smith as a variant of John Smith. -/
def mWitC6 : List (Str × Str) :=
  [(str "J. Smith", str "John Smith"), (str "John Smith", str "John Smith")]


/-- Case-insensitive character comparison (the regex i flag). -/
def eqCI (c d : Char) : Bool := c.toLower == d.toLower

/-- Fuel-driven scanner for case-insensitive global literal replacement:
at each position, if the lowercased next target.length characters equal the
lowercased target, emit the replacement and continue after the match
(non-overlapping, replacement not rescanned, like a JS g-flag replace);
otherwise emit one character and advance.  The fuel only serves structural
termination; one unit is spent per position, so length fuel is enough. -/
def replaceAllCIFuel (target repl : Str) : Nat → Str → Str
  | 0, s => s
  | fuel + 1, s =>
    match s with
    | [] => []
    | c :: cs =>
      if toLowerStr ((c :: cs).take target.length) = toLowerStr target then
        repl ++ replaceAllCIFuel target repl fuel ((c :: cs).drop target.length)
      else c :: replaceAllCIFuel target repl fuel cs

/-- Pass 1 of `standardizeJournalRef`: the source escapes every regex
metacharacter of the configured full journal name, so the compiled gi-regex
denotes case-insensitive global replacement of that literal substring.  An
empty target is returned unchanged (the configured names are nonempty). -/
def replaceAllCI (target repl s : Str) : Str :=
  if target = [] then s else replaceAllCIFuel target repl s.length s

/-- Pattern alphabet covering the configured journal-normalization regexes
(`journal_normalization_patterns.json` entries such as
Phys\\.?\\s*Rev\\.?\\s*B): case-insensitive literal characters, an optional
character (?), and \\s* runs.  Config regexes are embedded pre-parsed. -/
inductive Pat where
  | lit (c : Char)
  | opt (c : Char)
  | wsStar
deriving DecidableEq

/-- Backtracking matcher for a pattern list at the head of the input,
returning the number of characters consumed by the leftmost-greedy match
(JS regex semantics: greedy ? and \\s* with backtracking).  Fuel-driven for
structural termination; every call site supplies ample fuel, each recursive
step strictly decreases the combined pattern-plus-input length. -/
def matchPatsFuel : Nat → List Pat → Str → Option Nat
  | 0, _, _ => none
  | fuel + 1, ps, s =>
    match ps, s with
    | [], _ => some 0
    | Pat.lit _ :: _, [] => none
    | Pat.lit c :: ps, d :: s => if eqCI c d then (matchPatsFuel fuel ps s).map (· + 1) else none
    | Pat.opt _ :: ps, [] => matchPatsFuel fuel ps []
    | Pat.opt c :: ps, d :: s =>
      if eqCI c d then
        match matchPatsFuel fuel ps s with
        | some n => some (n + 1)
        | none => matchPatsFuel fuel ps (d :: s)
      else matchPatsFuel fuel ps (d :: s)
    | Pat.wsStar :: ps, [] => matchPatsFuel fuel ps []
    | Pat.wsStar :: ps, d :: s =>
      if d.isWhitespace then
        match matchPatsFuel fuel (Pat.wsStar :: ps) s with
        | some n => some (n + 1)
        | none => matchPatsFuel fuel ps (d :: s)
      else matchPatsFuel fuel ps (d :: s)

/-- Matcher entry point with sufficient fuel. -/
def matchPats (ps : List Pat) (s : Str) : Option Nat :=
  matchPatsFuel (s.length + ps.length + 1) ps s

/-- JS regex word character (\\w): ASCII alphanumeric or underscore. -/
def isWordChar (c : Char) : Bool := c.isAlphanum || c == '_'

/-- JS \\b word boundary between two adjacent positions (string edges count
as non-word). -/
def boundaryOk (a b : Option Char) : Bool :=
  (match a with | some c => isWordChar c | none => false)
    != (match b with | some c => isWordChar c | none => false)

/-- Scanner for pass 2 of `standardizeJournalRef`: global replacement of a
word-boundary-delimited pattern.  At each position the \\b-guarded pattern is
tried; on a (necessarily nonempty) match whose end also sits on a word
boundary the replacement is emitted and scanning resumes after the matched
region of the original string, otherwise one character is emitted.  A
zero-length match is treated as no match (the configured patterns contain
literals and cannot match the empty string). -/
def replacePatWB (p : List Pat) (repl : Str) : Nat → Option Char → Str → Str
  | 0, _, s => s
  | _ + 1, _, [] => []
  | fuel + 1, prev, c :: cs =>
    match (if boundaryOk prev (some c) then matchPats p (c :: cs) else none) with
    | some (n + 1) =>
      let k := n + 1
      let rest := (c :: cs).drop k
      match ((c :: cs).take k).getLast? with
      | some lastC =>
        if boundaryOk (some lastC) rest.head? then
          repl ++ replacePatWB p repl fuel (some lastC) rest
        else c :: replacePatWB p repl fuel (some c) cs
      | none => c :: replacePatWB p repl fuel (some c) cs
    | _ => c :: replacePatWB p repl fuel (some c) cs

/-- Word-boundary global pattern replacement with ample fuel. -/
def replaceAllPatWB (p : List Pat) (repl : Str) (s : Str) : Str :=
  replacePatWB p repl (s.length + 1) none s

/-- Embeds `PublicationMerger.standardizeJournalRef`
(src/merger/PublicationMerger.js): pass 1 replaces each configured full
journal name (case-insensitive literal, in table order) by its abbreviation;
pass 2 then rewrites each configured abbreviation-variant pattern
(case-insensitive, word-boundary delimited, in table order) to its canonical
form.  A falsy input yields null. -/
def standardizeJournalRef (journalAbbreviations : List (Str × Str))
    (normalizationPatterns : List (List Pat × Str)) (journalRef : Option Str) : Option Str :=
  match journalRef with
  | none => none
  | some jr =>
    if jr = [] then none
    else
      let s1 := journalAbbreviations.foldl (fun acc p => replaceAllCI p.1 p.2 acc) jr
      some (normalizationPatterns.foldl (fun acc p => replaceAllPatWB p.1 p.2 acc) s1)

/-- Drop a literal if it heads the string (helper for the anchored DOI
resolver regex). -/
def dropLit (lit s : Str) : Option Str :=
  if lit.isPrefixOf s then some (s.drop lit.length) else none

/-- After the scheme of a DOI resolver URL: matches ://(dx.)?doi.org/ with
the optional dx. tried greedily first, returning the remainder. -/
def doiResolverTail (s : Str) : Option Str :=
  match dropLit (str "://") s with
  | none => none
  | some r =>
    match dropLit (str "dx.") r with
    | some r3 =>
      match dropLit (str "doi.org/") r3 with
      | some r4 => some r4
      | none =>
        match dropLit (str "doi.org/") r with
        | some r4 => some r4
        | none => none
    | none =>
      match dropLit (str "doi.org/") r with
      | some r4 => some r4
      | none => none

/-- The anchored regex ^https?:\\/\\/(dx\\.)?doi\\.org\\/ of
`PublicationMerger.normalizeDoi`: strip a leading resolver-URL spelling,
returning the input unchanged when it does not match. -/
def dropDoiResolver (s : Str) : Str :=
  match dropLit (str "http") s with
  | none => s
  | some r1 =>
    match (match dropLit (str "s") r1 with
           | some r2 => doiResolverTail r2
           | none => none) with
    | some rest => rest
    | none =>
      match doiResolverTail r1 with
      | some rest => rest
      | none => s

/-- Embeds `PublicationMerger.normalizeDoi`
(src/merger/PublicationMerger.js): null for a falsy DOI, otherwise strip a
resolver-URL spelling, lowercase, and trim. -/
def normalizeDoi (doi : Option Str) : Option Str :=
  match doi with
  | none => none
  | some s => if s = [] then none else some (jsTrim (toLowerStr (dropDoiResolver s)))

/-- The claim C7 pattern-table entry Phys\\.?\\s*Rev\\.?\\s*B, pre-parsed. -/
def patPhysRevB : List Pat :=
  [Pat.lit 'P', Pat.lit 'h', Pat.lit 'y', Pat.lit 's', Pat.opt '.', Pat.wsStar,
   Pat.lit 'R', Pat.lit 'e', Pat.lit 'v', Pat.opt '.', Pat.wsStar, Pat.lit 'B']


/-- Collapse runs of spaces to a single space (used to model the chained
replace of non-word characters by spaces followed by whitespace-run
collapsing in the CrossRef title cleaning). -/
def squeezeSpaces : Str → Str
  | [] => []
  | [c] => [c]
  | c :: d :: cs =>
    if c = ' ' && d = ' ' then squeezeSpaces (d :: cs) else c :: squeezeSpaces (d :: cs)

/-- The CrossRef search title cleaning of
`CrossRefFetcher.searchByTitleAndAuthor` (src/fetchers/CrossRefFetcher.js):
replace every non-word character by a space, collapse whitespace runs to a
single space, trim.  (Replacing every non-word character directly by a space
before collapsing is equivalent to the two chained JS replaces, since the
collapse turns every whitespace run, original or inserted, into one space.) -/
def crCleanTitle (s : Str) : Str :=
  jsTrim (squeezeSpaces (s.map (fun c => if isWordChar c then c else ' ')))

/-- Cleaning applied to a candidate title: lowercase first, then the same
non-word/whitespace cleaning. -/
def crItemClean (t0 : Str) : Str := crCleanTitle (toLowerStr t0)

/-- A CrossRef search candidate; only its title array takes part in the
best-match selection. -/
structure CRItem where
  titles : List Str
deriving DecidableEq

/-- The word-overlap count of the selection loop: significant search words
(length greater than 3) having a substring-inclusion partner among the
candidate words. -/
def crMatches (searchWords itemWords : List Str) : Nat :=
  (searchWords.filter (fun w =>
    decide (w.length > 3) && itemWords.any (fun iw => strIncludes iw w || strIncludes w iw))).length

/-- The cleaned, lowercased, space-split search words of the query title. -/
def crSearchWords (rawTitle : Str) : List Str :=
  splitOnChar ' ' (toLowerStr (crCleanTitle rawTitle))

/-- Overlap count of a candidate, reading its first title. -/
def crMatchesItem (searchWords : List Str) (item : CRItem) : Nat :=
  crMatches searchWords (splitOnChar ' ' (crItemClean (item.titles.head?.getD [])))

/-- One iteration of the candidate loop of
`CrossRefFetcher.searchByTitleAndAuthor`: skip candidates without a truthy
first title; accept a candidate as new best exactly when its score is
strictly above the current best score and strictly above 0.6.  Scores
(matches divided by the search word count) are compared exactly by
cross-multiplication; for the operand sizes reachable here the IEEE double
comparisons of the source coincide with exact rational comparison. -/
def crFoldStep (searchWords : List Str) (acc : Option CRItem × Nat × Nat) (item : CRItem) :
    Option CRItem × Nat × Nat :=
  match item.titles.head? with
  | none => acc
  | some t0 =>
    if t0 = [] then acc
    else
      let itemWords := splitOnChar ' ' (crItemClean t0)
      let m := crMatches searchWords itemWords
      let len := searchWords.length
      if decide (m * acc.2.2 > acc.2.1 * len) && decide (5 * m > 3 * len) then (some item, m, len)
      else acc

/-- The best-candidate selection of `CrossRefFetcher.searchByTitleAndAuthor`
(src/fetchers/CrossRefFetcher.js, lines 181 to 202): fold the candidate list
with best score starting at 0 and return the accepted candidate, if any. -/
def crossrefBestMatch (rawTitle : Str) (items : List CRItem) : Option CRItem :=
  (items.foldl (crFoldStep (crSearchWords rawTitle)) (none, 0, 1)).1

/-- The claim C5 similarity score as an exact rational: overlap count over
search word count. -/
def crScoreQ (rawTitle : Str) (item : CRItem) : ℚ :=
  (crMatchesItem (crSearchWords rawTitle) item : ℚ) / ((crSearchWords rawTitle).length : ℚ)

/-- A 100-word query title whose overlap with the single candidate word is
exactly 61 significant words: score 61/100 = 0.61. -/
def c5title61 : Str :=
  joinSep (str " ") (List.replicate 61 (str "long") ++ List.replicate 39 (str "tw"))


/-- An ORCID citation payload: `citation.type` and `citation.value`. -/
structure Citation where
  ctype : Option Str
  value : Str
deriving DecidableEq

/-- The result shape of `CitationParser.parseCitationData`
(src/parsers/CitationParser.js): extracted authors, human-readable journal
reference, and DOI, each possibly null. -/
structure CitationData where
  authors : Option Str
  journal_ref : Option Str
  doi : Option Str
deriving DecidableEq

/-- Character class [0-9.] of the generic DOI pattern. -/
def isDoiNumChar (c : Char) : Bool := c.isDigit || c == '.'

/-- Character class [^\\s,] of the generic DOI pattern. -/
def isDoiTailChar (c : Char) : Bool := !(c.isWhitespace || c == ',')

/-- The tail [0-9.]+\\/[^\\s,]+ of the generic DOI regex at a fixed position:
a nonempty greedy digits-and-dots run, a slash, a nonempty greedy run of
non-space non-comma characters. -/
def doiNumSlashTail (s : Str) : Option Str :=
  let num := s.takeWhile isDoiNumChar
  if num = [] then none
  else
    match s.drop num.length with
    | '/' :: rest =>
      let tl := rest.takeWhile isDoiTailChar
      if tl = [] then none else some (num ++ '/' :: tl)
    | _ => none

/-- The separator part [:.\\s]* of the generic DOI regex with JS greedy
backtracking: consume as many separator characters as possible, giving one
back at a time until the numeric tail matches. -/
def doiSepScan : Str → Option Str
  | [] => doiNumSlashTail []
  | c :: cs =>
    if c = ':' || c = '.' || c.isWhitespace then
      match doiSepScan cs with
      | some tok => some tok
      | none => doiNumSlashTail (c :: cs)
    else doiNumSlashTail (c :: cs)

/-- The (?:doi|DOI) alternation at a fixed position. -/
def doiKwTail : Str → Option Str
  | 'd' :: 'o' :: 'i' :: rest => some rest
  | 'D' :: 'O' :: 'I' :: rest => some rest
  | _ => none

/-- Leftmost search of /(?:doi|DOI)[:.\\s]*([0-9.]+\\/[^\\s,]+)/ used by
`CitationParser.parseGeneric`: try the keyword at each position, then the
separator run with backtracking, then the DOI-shaped token. -/
def parseGenericDoiScan : Str → Option Str
  | [] => none
  | c :: cs =>
    match doiKwTail (c :: cs) with
    | some rest =>
      match doiSepScan rest with
      | some tok => some tok
      | none => parseGenericDoiScan cs
    | none => parseGenericDoiScan cs

/-- A token is DOI-shaped when it consists of a nonempty [0-9.] run, a
slash, and a nonempty run without whitespace or commas (the capture shape of
the generic pattern). -/
def doiShaped (tok : Str) : Bool :=
  let num := tok.takeWhile isDoiNumChar
  !num.isEmpty &&
    (match tok.drop num.length with
     | '/' :: rest => !rest.isEmpty && rest.all isDoiTailChar
     | _ => false)

/-- Embeds `CitationParser.parseGeneric` (src/parsers/CitationParser.js):
authors and journal reference stay null; a DOI-shaped token found by pattern
match is returned resolver-prefixed, else null. -/
def parseGeneric (citationText : Str) : CitationData :=
  match parseGenericDoiScan citationText with
  | some tok => ⟨none, none, some (str "https://doi.org/" ++ tok)⟩
  | none => ⟨none, none, none⟩

/-- Mutable state of the RIS line loop of `CitationParser.parseRIS`. -/
structure RISState where
  authors : List Str
  journal : Option Str
  volume : Option Str
  issue : Option Str
  pages : Option Str
  year : Option Str
  doi : Option Str
deriving DecidableEq

/-- One line of `CitationParser.parseRIS`: two-character line-prefix tags
dispatch into the state, later tags overwriting earlier ones; an end page is
appended only when a start page is already present. -/
def risLine (st : RISState) (line : Str) : RISState :=
  let trimmed := jsTrim line
  if startsWithStr trimmed (str "AU  - ") || startsWithStr trimmed (str "A1  - ") then
    { st with authors := st.authors ++ [jsTrim (trimmed.drop 6)] }
  else if startsWithStr trimmed (str "JO  - ") || startsWithStr trimmed (str "T2  - ") then
    { st with journal := some (jsTrim (trimmed.drop 6)) }
  else if startsWithStr trimmed (str "VL  - ") then
    { st with volume := some (jsTrim (trimmed.drop 6)) }
  else if startsWithStr trimmed (str "IS  - ") then
    { st with issue := some (jsTrim (trimmed.drop 6)) }
  else if startsWithStr trimmed (str "SP  - ") then
    { st with pages := some (jsTrim (trimmed.drop 6)) }
  else if startsWithStr trimmed (str "EP  - ") && optTruthy st.pages then
    { st with pages := some (st.pages.getD [] ++ '-' :: jsTrim (trimmed.drop 6)) }
  else if startsWithStr trimmed (str "PY  - ") || startsWithStr trimmed (str "Y1  - ") then
    { st with year := some ((jsTrim (trimmed.drop 6)).take 4) }
  else if startsWithStr trimmed (str "DO  - ") then
    { st with doi := some (str "https://doi.org/" ++ jsTrim (trimmed.drop 6)) }
  else st

/-- Embeds `CitationParser.parseRIS` (src/parsers/CitationParser.js). -/
def parseRIS (citationText : Str) : CitationData :=
  let st := (splitOnChar '\n' citationText).foldl risLine ⟨[], none, none, none, none, none, none⟩
  let authors := if st.authors.length > 0 then some (joinSep (str ", ") st.authors) else none
  let journal_ref :=
    if optTruthy st.journal then
      let ref := st.journal.getD []
      let ref := if optTruthy st.volume then
          ref ++ ' ' :: st.volume.getD []
            ++ (if optTruthy st.issue then '(' :: st.issue.getD [] ++ [')'] else [])
        else ref
      let ref := if optTruthy st.pages then ref ++ ',' :: ' ' :: st.pages.getD [] else ref
      let ref := if optTruthy st.year then ref ++ ' ' :: '(' :: st.year.getD [] ++ [')'] else ref
      some ref
    else none
  ⟨authors, journal_ref, st.doi⟩

/-- Case-insensitive literal key match at a position (the i flag of the
BibTeX field regexes). -/
def matchKeyCI : Str → Str → Option Str
  | [], s => some s
  | _, [] => none
  | k :: ks, c :: cs => if eqCI k c then matchKeyCI ks cs else none

/-- BibTeX brace-delimited field value: \\{([^}]+)\\}. -/
def braceContent : Str → Option Str
  | '{' :: rest =>
    let content := rest.takeWhile (fun c => c != '}')
    if content = [] then none
    else if (rest.drop content.length).head? = some '}' then some content else none
  | _ => none

/-- BibTeX quote-delimited field value: "([^"]+)". -/
def quoteContent : Str → Option Str
  | '"' :: rest =>
    let content := rest.takeWhile (fun c => c != '"')
    if content = [] then none
    else if (rest.drop content.length).head? = some '"' then some content else none
  | _ => none

/-- The loose delimiter class of the volume/number/pages/year/doi regexes:
one of brace-or-quote characters, a nonempty run outside that class, then
another such character. -/
def anyDelimContent (s : Str) : Option Str :=
  match s with
  | o :: rest =>
    if o = '{' || o = '"' || o = '}' then
      let content := rest.takeWhile (fun c => !(c = '"' || c = '{' || c = '}'))
      if content = [] then none
      else
        match (rest.drop content.length).head? with
        | some cl => if cl = '}' || cl = '"' || cl = '{' then some content else none
        | none => none
    else none
  | [] => none

/-- Leftmost search for key\\s*=\\s* followed by a delimited value (the BibTeX
field regexes, case-insensitive). -/
def findKeyVal (key : Str) (shape : Str → Option Str) : Str → Option Str
  | [] => none
  | c :: cs =>
    match
      (match matchKeyCI key (c :: cs) with
       | some r1 =>
         match r1.dropWhile Char.isWhitespace with
         | '=' :: r3 => shape (r3.dropWhile Char.isWhitespace)
         | _ => none
       | none => none) with
    | some v => some v
    | none => findKeyVal key shape cs

/-- Fuel-driven split on a multi-character separator
(`String.prototype.split` with a string argument), leftmost and
non-overlapping. -/
def splitOnSubFuel (sep : Str) : Nat → Str → List Str
  | 0, s => [s]
  | fuel + 1, s =>
    match s with
    | [] => [[]]
    | c :: cs =>
      if sep.isPrefixOf (c :: cs) then [] :: splitOnSubFuel sep fuel ((c :: cs).drop sep.length)
      else
        match splitOnSubFuel sep fuel cs with
        | [] => [[c]]
        | h :: t => (c :: h) :: t

/-- Split on a nonempty separator string with ample fuel. -/
def splitOnSub (sep s : Str) : List Str :=
  if sep = [] then [s] else splitOnSubFuel sep s.length s

/-- Embeds `CitationParser.parseBibTeX` (src/parsers/CitationParser.js):
author list split on the literal " and " separator; journal or booktitle in
brace or quote form; volume/number/pages/year/doi through the loose
delimiter class; the journal reference assembled as
journal volume(number), pages (year), or (year) alone. -/
def parseBibTeX (citationText : Str) : CitationData :=
  let authors :=
    match findKeyVal (str "author") braceContent citationText with
    | some content =>
      some (joinSep (str ", ")
        (((splitOnSub (str " and ") content).map jsTrim).filter (fun a => a ≠ [])))
    | none => none
  let journalM :=
    match findKeyVal (str "journal") braceContent citationText with
    | some j => some j
    | none =>
      match findKeyVal (str "journal") quoteContent citationText with
      | some j => some j
      | none =>
        match findKeyVal (str "booktitle") braceContent citationText with
        | some j => some j
        | none => findKeyVal (str "booktitle") quoteContent citationText
  let volumeM := findKeyVal (str "volume") anyDelimContent citationText
  let numberM := findKeyVal (str "number") anyDelimContent citationText
  let pagesM := findKeyVal (str "pages") anyDelimContent citationText
  let yearM := findKeyVal (str "year") anyDelimContent citationText
  let doiM := findKeyVal (str "doi") anyDelimContent citationText
  let journal_ref :=
    match journalM with
    | some j =>
      let ref := jsTrim j
      let ref :=
        match volumeM with
        | some v =>
          ref ++ ' ' :: jsTrim v
            ++ (match numberM with
                | some n => '(' :: jsTrim n ++ [')']
                | none => [])
        | none => ref
      let ref := match pagesM with
        | some p => ref ++ ',' :: ' ' :: jsTrim p
        | none => ref
      let ref := match yearM with
        | some y => ref ++ ' ' :: '(' :: jsTrim y ++ [')']
        | none => ref
      some ref
    | none =>
      match yearM with
      | some y => some ('(' :: jsTrim y ++ [')'])
      | none => none
  let doi :=
    match doiM with
    | some d => some (str "https://doi.org/" ++ jsTrim d)
    | none => none
  ⟨authors, journal_ref, doi⟩

/-- The lowercased citation type (empty for a missing type). -/
def citTypeOf (ctype : Option Str) : Str :=
  match ctype with
  | some t => toLowerStr t
  | none => []

/-- Embeds `CitationParser.parseCitationData`
(src/parsers/CitationParser.js): falsy citations parse to all-null; the type
dispatches to the BibTeX or RIS parser, any other type degrades to the
generic fallback extractor. -/
def parseCitationData (citation : Option Citation) : CitationData :=
  match citation with
  | none => ⟨none, none, none⟩
  | some c =>
    if c.value = [] then ⟨none, none, none⟩
    else
      if citTypeOf c.ctype = str "bibtex" then parseBibTeX c.value
      else if citTypeOf c.ctype = str "ris" then parseRIS c.value
      else parseGeneric c.value


/-- The recurring JS blank test on string fields:
the JS test for null, empty, or whitespace-only authors or abstract values. -/
def optBlank : Option Str → Bool
  | none => true
  | some s => s.isEmpty || (jsTrim s).isEmpty

/-- The `formats` object of an entry ({html, pdf}). -/
structure Formats where
  html : Option Str
  pdf : Option Str
deriving DecidableEq

/-- A highlight-configuration entry keyed by DOI. -/
structure Highlight where
  doi : Str
  coverage : List Str
  awards : List Str
deriving DecidableEq

/-- A publication entry as handled by `PublicationMerger`: the JSON fields
read or written by the merge-and-enrich phase.  String-typed JS fields are
`Option Str` (null/undefined is `none`); the arrays `categories`,
`author_ids`, `coverage` and `awards` are plain lists ([] standing for
absent-or-empty, which the source treats alike); the `_orcid_*` transient
fields carry raw provenance payloads.  The `published`/`updated` dates are
omitted: the modelled phase never reads them. -/
structure Entry where
  id : Option Str
  title : Option Str
  journal_ref : Option Str
  doi : Option Str
  summary : Option Str
  authors : Option Str
  categories : List Str
  formats : Option Formats
  author_ids : List Str
  arxiv_url : Option Str
  journal_url : Option Str
  coverage : List Str
  awards : List Str
  orcidExternalIds : Option (List (Str × Str))
  orcidContributors : Option (List Str)
  orcidCitation : Option Citation
deriving DecidableEq

/-- An entry with every field absent (base value for building fixtures). -/
def emptyEntry : Entry where
  id := none
  title := none
  journal_ref := none
  doi := none
  summary := none
  authors := none
  categories := []
  formats := none
  author_ids := []
  arxiv_url := none
  journal_url := none
  coverage := []
  awards := []
  orcidExternalIds := none
  orcidContributors := none
  orcidCitation := none

/-- The result shape of the arXiv title-and-author search oracle. -/
structure ArxivResult where
  id : Option Str
  doi : Option Str
  summary : Option Str
  authors : Option Str
  categories : Option (List Str)
deriving DecidableEq

/-- The result shape of `CrossRefFetcher.fetchMetadata`. -/
structure CrossrefMeta where
  authors : Option Str
  summary : Option Str
deriving DecidableEq

/-- The result shape of `CrossRefFetcher.searchByTitleAndAuthor`. -/
structure CrossrefSearchResult where
  doi : Option Str
  authors : Option Str
  summary : Option Str
  journal_ref : Option Str
deriving DecidableEq

/-- The network oracles used during enrichment.  Each field models one
awaited fetcher call; a failed or timed-out call is a `none`/empty result
(the source catches and ignores all such errors). -/
structure Env where
  crossrefFetchMetadata : Str → CrossrefMeta
  arxivSearchTA : Str → Str → Option ArxivResult
  crossrefSearchTA : Str → Str → Option CrossrefSearchResult
  inferJournalRef : Str → Option (List (Str × Str)) → Option Str
  arxivSearchByDOI : Str → Option Str

/-- The oracle under which every network lookup fails or returns nothing. -/
def emptyEnv : Env where
  crossrefFetchMetadata := fun _ => ⟨none, none⟩
  arxivSearchTA := fun _ _ => none
  crossrefSearchTA := fun _ _ => none
  inferJournalRef := fun _ _ => none
  arxivSearchByDOI := fun _ => none

/-- The read-only configuration bundle of `PublicationMerger`: researcher
roster, journal abbreviation table, normalization pattern table (pre-parsed
regexes) and highlights. -/
structure Config where
  basics : List (Str × Researcher)
  journalAbbreviations : List (Str × Str)
  normalizationPatterns : List (List Pat × Str)
  highlights : List Highlight

/-- The name-variant lookup table the merger constructor builds once. -/
def nameVariants (cfg : Config) : List (Str × Str) := buildNameVariantsMap cfg.basics

/-- Empty configuration. -/
def emptyConfig : Config := ⟨[], [], [], []⟩

/-- The regex arxiv\\.org\\/abs\\/([\\d.]+v?\\d*) at a fixed position: the
literal, a nonempty greedy run of digits and dots, then an optional v with
following digits.  The capture includes the version suffix when present. -/
def arxivAccAt (s : Str) : Option Str :=
  match dropLit (str "arxiv.org/abs/") s with
  | none => none
  | some r =>
    let num := r.takeWhile (fun c => c.isDigit || c = '.')
    if num = [] then none
    else
      match r.drop num.length with
      | 'v' :: r2 => some (num ++ 'v' :: r2.takeWhile Char.isDigit)
      | _ => some num

/-- Leftmost search for the accession regex. -/
def arxivIdScan : Str → Option Str
  | [] => none
  | c :: cs =>
    match arxivAccAt (c :: cs) with
    | some a => some a
    | none => arxivIdScan cs

/-- The dedup key `entry.id.match(/arxiv\\.org\\/abs\\/([\\d.]+v?\\d*)/)` of
the flatten loop (null for a falsy id). -/
def extractArxivId (idOpt : Option Str) : Option Str :=
  match idOpt with
  | none => none
  | some s => if s = [] then none else arxivIdScan s

/-- The other arXiv id regex /arxiv\\.org\\/abs\\/(.+)$/ used on search
results: everything (nonempty) after the first literal occurrence. -/
def arxivAbsTail : Str → Option Str
  | [] => none
  | c :: cs =>
    match dropLit (str "arxiv.org/abs/") (c :: cs) with
    | some r => if r = [] then arxivAbsTail cs else some r
    | none => arxivAbsTail cs

/-- The version-stripping replace of a trailing v\\d+: remove a trailing v plus
digits, used only when deriving URLs. -/
def stripVersion (s : Str) : Str :=
  let revDigits := s.reverse.takeWhile Char.isDigit
  if revDigits = [] then s
  else
    match s.reverse.drop revDigits.length with
    | 'v' :: _ => (s.reverse.drop (revDigits.length + 1)).reverse
    | _ => s

/-- Embeds `UrlBuilder.buildArxivUrl`: extract the accession from the id and
build a version-stripped abs URL. -/
def buildArxivUrl (e : Entry) : Option Str :=
  match extractArxivId e.id with
  | some a => some (str "https://arxiv.org/abs/" ++ stripVersion a)
  | none => none

/-- Embeds `UrlBuilder.buildJournalUrl`: a DOI already spelled as a URL is
returned as is, otherwise the resolver is prepended. -/
def buildJournalUrl (doi : Str) : Str :=
  if startsWithStr doi (str "http") then doi else str "https://doi.org/" ++ doi

/-- Embeds `PublicationMerger.findHighlights`: first highlight entry whose
DOI matches case-insensitively (no resolver stripping in this version). -/
def findHighlights (highlights : List Highlight) (doi : Option Str) : Option Highlight :=
  match doi with
  | none => none
  | some d =>
    if d = [] then none
    else highlights.find? (fun h => toLowerStr h.doi == toLowerStr d)

/-- Insert into the `publicationAuthors` map (key to set of researcher ids,
insertion-ordered, duplicate-free). -/
def paAdd (m : List (Str × List Str)) (k v : Str) : List (Str × List Str) :=
  match m.find? (fun p => p.1 == k) with
  | some _ =>
    m.map (fun p => if p.1 == k then (p.1, if p.2.contains v then p.2 else p.2 ++ [v]) else p)
  | none => m ++ [(k, [v])]

/-- Read the `publicationAuthors` map. -/
def paGet (m : List (Str × List Str)) (k : Str) : Option (List Str) :=
  (m.find? (fun p => p.1 == k)).map Prod.snd

/-- The title key: lowercased trimmed title, empty for a falsy title. -/
def titleKeyOf (e : Entry) : Str :=
  match e.title with
  | some t => if t = [] then [] else jsTrim (toLowerStr t)
  | none => []

/-- The publication key used while building `publicationAuthors`
(PublicationMerger lines 243 to 251): normalized DOI with fallback to the
lowercased raw DOI when the normalization is falsy, else the title key for
orcid entries, else the id, else the title key. -/
def pubKeyPhaseA (e : Entry) : Str :=
  if optTruthy e.doi then
    match normalizeDoi e.doi with
    | some n => if n = [] then toLowerStr (e.doi.getD []) else n
    | none => toLowerStr (e.doi.getD [])
  else if optTruthy e.id && startsWithStr (e.id.getD []) (str "orcid:") then titleKeyOf e
  else if optTruthy e.id then e.id.getD []
  else titleKeyOf e

/-- The publication key recomputed inside `enrichEntry` (lines 442 to 449):
the lowercased raw DOI (not normalized) when a DOI exists by then, else as
in phase A. -/
def pubKeyEnrich (e : Entry) : Str :=
  if optTruthy e.doi then toLowerStr (e.doi.getD [])
  else if optTruthy e.id && startsWithStr (e.id.getD []) (str "orcid:") then titleKeyOf e
  else if optTruthy e.id then e.id.getD []
  else titleKeyOf e

/-- The anchored orcid-id match (regex caret, orcid colon, captured digits,
then a hyphen) extracting the researcher id from a synthetic orcid entry
id. -/
def orcidSeedId (id : Str) : Option Str :=
  match dropLit (str "orcid:") id with
  | none => none
  | some r =>
    let ds := r.takeWhile Char.isDigit
    if ds = [] then none
    else
      match r.drop ds.length with
      | '-' :: _ => some ds
      | _ => none

/-- Enrichment step: seed missing authors of an orcid-only entry with the
researcher name from the roster. -/
def enrichStepSeedAuthors (cfg : Config) (e : Entry) : Entry :=
  if optTruthy e.id && startsWithStr (e.id.getD []) (str "orcid:") && optBlank e.authors then
    match orcidSeedId (e.id.getD []) with
    | some rid =>
      match cfg.basics.find? (fun p => p.1 == rid) with
      | some p => { e with authors := some p.2.name }
      | none => e
    | none => e
  else e

/-- The contributor merge of the orcid-metadata step: blank authors are
replaced by the joined contributor list, otherwise the existing authors
string is merged with the contributors through a Set. -/
def orcidContribMerge (e : Entry) : Entry :=
  match e.orcidContributors with
  | some contribs =>
    if contribs.length > 0 then
      if optBlank e.authors then { e with authors := some (joinSep (str ", ") contribs) }
      else
        let allAuthors := jsSetDedup (e.authors.getD [] :: contribs)
        { e with authors := some (joinSep (str ", ") allAuthors) }
    else e
  | none => e

/-- The citation fill of the orcid-metadata step: parse the embedded
citation and use its authors (if authors still blank), journal reference
and DOI (if still falsy). -/
def orcidCitationFill (e : Entry) : Entry :=
  match e.orcidCitation with
  | some cit =>
    let cd := parseCitationData (some cit)
    let e := if optTruthy cd.authors && optBlank e.authors then
        { e with authors := cd.authors } else e
    let e := if optTruthy cd.journal_ref && !optTruthy e.journal_ref then
        { e with journal_ref := cd.journal_ref } else e
    if optTruthy cd.doi && !optTruthy e.doi then { e with doi := cd.doi } else e
  | none => e

/-- Enrichment step: for orcid entries still missing authors, journal
reference or DOI, merge the stored contributors into the authors string and
fill still-missing fields from the parsed embedded citation. -/
def enrichStepOrcidMeta (e : Entry) : Entry :=
  if optTruthy e.id && startsWithStr (e.id.getD []) (str "orcid:") then
    if !optTruthy e.authors || !optTruthy e.journal_ref || !optTruthy e.doi then
      orcidCitationFill (orcidContribMerge e)
    else e
  else e

/-- Enrichment step: normalize the authors string through the name-variant
table whenever it is truthy. -/
def enrichStepNormalize (cfg : Config) (e : Entry) : Entry :=
  if optTruthy e.authors then
    { e with authors := some (normalizeAuthorNames (nameVariants cfg) (e.authors.getD [])) }
  else e

/-- Enrichment step: when a DOI exists and authors or abstract are blank,
fetch CrossRef metadata by DOI and fill each field only if still blank
locally. -/
def enrichStepCrossrefFetch (env : Env) (e : Entry) : Entry :=
  if optTruthy e.doi && (optBlank e.authors || optBlank e.summary) then
    let cm := env.crossrefFetchMetadata (e.doi.getD [])
    let e := if optTruthy cm.authors && optBlank e.authors then { e with authors := cm.authors } else e
    if optTruthy cm.summary && optBlank e.summary then { e with summary := cm.summary } else e
  else e

/-- The guard `!entry.formats || !entry.formats.html`. -/
def formatsHtmlBlank (e : Entry) : Bool :=
  match e.formats with
  | none => true
  | some f => !optTruthy f.html

/-- Fill the DOI from a search hit if locally falsy. -/
def fillDoi (d : Option Str) (e : Entry) : Entry :=
  if !optTruthy e.doi && optTruthy d then { e with doi := d } else e

/-- Fill the abstract from a search hit if locally falsy. -/
def fillSummary (s : Option Str) (e : Entry) : Entry :=
  if !optTruthy e.summary && optTruthy s then { e with summary := s } else e

/-- Fill the authors from a search hit if locally blank. -/
def fillBlankAuthors (a : Option Str) (e : Entry) : Entry :=
  if optBlank e.authors then { e with authors := a } else e

/-- Fill the journal reference from a search hit if locally falsy. -/
def fillJournalRef (j : Option Str) (e : Entry) : Entry :=
  if !optTruthy e.journal_ref && optTruthy j then { e with journal_ref := j } else e

/-- Build the formats object from an arXiv search hit id when the local
formats lack an html link. -/
def arxivIdFill (rid : Option Str) (e : Entry) : Entry :=
  match rid with
  | some rid =>
    if rid = [] then e
    else
      match arxivAbsTail rid with
      | some aid =>
        let clean := stripVersion aid
        if formatsHtmlBlank e then
          { e with formats := some ⟨some (str "http://arxiv.org/abs/" ++ clean),
                                   some (str "http://arxiv.org/pdf/" ++ clean)⟩ }
        else e
      | none => e
  | none => e

/-- Fill the categories from an arXiv search hit when locally empty. -/
def categoriesFill (cats : Option (List Str)) (e : Entry) : Entry :=
  match cats with
  | some cats => if e.categories.length = 0 then { e with categories := cats } else e
  | none => e

/-- The field fill applied to an arXiv title-and-author search hit. -/
def arxivFill (r : ArxivResult) (e : Entry) : Entry :=
  categoriesFill r.categories
    (arxivIdFill r.id
      (fillBlankAuthors r.authors
        (fillSummary r.summary
          (fillDoi r.doi e))))

/-- The field fill applied to a CrossRef title-and-author search hit. -/
def crossrefFill (r : CrossrefSearchResult) (e : Entry) : Entry :=
  fillJournalRef r.journal_ref
    (fillBlankAuthors r.authors
      (fillSummary r.summary
        (fillDoi r.doi e)))

/-- Enrichment step: for orcid entries with a title and authors that still
miss a DOI, abstract, arXiv URL or journal reference, search arXiv by title
and author (filling DOI, abstract, blank authors, formats and categories),
then, if data is still missing, search CrossRef by title and author
(filling DOI, abstract, blank authors and journal reference). -/
def enrichStepSearch (env : Env) (e : Entry) : Entry :=
  if optTruthy e.id && startsWithStr (e.id.getD []) (str "orcid:")
      && optTruthy e.title && optTruthy e.authors then
    if !optTruthy e.doi || !optTruthy e.summary || !optTruthy e.arxiv_url
        || !optTruthy e.journal_ref then
      let e :=
        match env.arxivSearchTA (e.title.getD []) (e.authors.getD []) with
        | some r => arxivFill r e
        | none => e
      if !optTruthy e.doi || !optTruthy e.summary || !optTruthy e.journal_ref then
        match env.crossrefSearchTA (e.title.getD []) (e.authors.getD []) with
        | some r => crossrefFill r e
        | none => e
      else e
    else e
  else e

/-- Enrichment step: set `author_ids` to the sorted deduplicated union of
the researcher ids tracked under the (post-enrichment) publication key and
the ids found by name-matching the authors string. -/
def enrichStepAuthorIds (cfg : Config) (pubAuthors : List (Str × List Str)) (e : Entry) : Entry :=
  let trackedIds := (paGet pubAuthors (pubKeyEnrich e)).getD []
  let nameMatchedIds := findQudymaAuthorIdsByName (nameVariants cfg) cfg.basics e.authors
  { e with author_ids := jsSortStr (jsSetDedup (trackedIds ++ nameMatchedIds)) }

/-- Enrichment step: standardize an existing journal reference, else infer
one from the DOI through the CrossRef oracle. -/
def enrichStepJournalRef (cfg : Config) (env : Env) (e : Entry) : Entry :=
  if optTruthy e.journal_ref then
    { e with journal_ref :=
        standardizeJournalRef cfg.journalAbbreviations cfg.normalizationPatterns e.journal_ref }
  else if optTruthy e.doi then
    match env.inferJournalRef (e.doi.getD []) e.orcidExternalIds with
    | some r => if r = [] then e else { e with journal_ref := some r }
    | none => e
  else e

/-- Enrichment step: derive the arXiv URL from the id (falling back to an
arXiv search by DOI) and the journal URL from the DOI. -/
def enrichStepUrls (env : Env) (e : Entry) : Entry :=
  let e := { e with arxiv_url := buildArxivUrl e }
  let e :=
    if !optTruthy e.arxiv_url && optTruthy e.doi then
      match env.arxivSearchByDOI (e.doi.getD []) with
      | some fid =>
        if fid = [] then e
        else
          let clean := stripVersion fid
          let e := { e with arxiv_url := some (str "https://arxiv.org/abs/" ++ clean) }
          if formatsHtmlBlank e then
            { e with formats := some ⟨some (str "http://arxiv.org/abs/" ++ clean),
                                     some (str "http://arxiv.org/pdf/" ++ clean)⟩ }
          else e
      | none => e
    else e
  { e with journal_url := if optTruthy e.doi then some (buildJournalUrl (e.doi.getD [])) else none }

/-- Enrichment step: drop the transient `_orcid_*` fields and attach any
configured highlights. -/
def enrichStepFinalize (cfg : Config) (e : Entry) : Entry :=
  let e := { e with orcidExternalIds := none, orcidContributors := none, orcidCitation := none }
  match findHighlights cfg.highlights e.doi with
  | some hl =>
    let e := if hl.coverage.length > 0 then { e with coverage := hl.coverage } else e
    if hl.awards.length > 0 then { e with awards := hl.awards } else e
  | none => e

/-- Embeds `PublicationMerger.enrichEntry` (src/merger/PublicationMerger.js,
lines 326 to 508) as the composition of its sequential steps.  (The source
also receives the iterating researcher id, which it shadows and never
uses.) -/
def enrichEntry (cfg : Config) (env : Env) (pubAuthors : List (Str × List Str)) (e : Entry) : Entry :=
  enrichStepFinalize cfg
    (enrichStepUrls env
      (enrichStepJournalRef cfg env
        (enrichStepAuthorIds cfg pubAuthors
          (enrichStepSearch env
            (enrichStepCrossrefFetch env
              (enrichStepNormalize cfg
                (enrichStepOrcidMeta
                  (enrichStepSeedAuthors cfg e))))))))

/-- The completeness filter of the title-duplicate branch (lines 279 to
283): a truthy id, an arxiv.org id or truthy authors, and a truthy abstract
or journal reference. -/
def entryComplete (e : Entry) : Bool :=
  optTruthy e.id
    && (strIncludes (e.id.getD []) (str "arxiv.org") || optTruthy e.authors)
    && (optTruthy e.summary || optTruthy e.journal_ref)

/-- The `titleMap` of the flatten phase: title key to the indices (in
flattening order) of the entries carrying it.  Indices stand for the object
references the source stores, so that later reads observe in-place
mutation. -/
def buildTitleMap (flat : List (Str × Entry)) : List (Str × List Nat) :=
  flat.enum.foldl
    (fun m p =>
      let tkey := titleKeyOf p.2.2
      match m.find? (fun q => q.1 == tkey) with
      | some _ => m.map (fun q => if q.1 == tkey then (q.1, q.2 ++ [p.1]) else q)
      | none => m ++ [(tkey, [p.1])])
    []

/-- Look up a title group (empty when absent). -/
def titleGroup (tm : List (Str × List Nat)) (k : Str) : List Nat :=
  ((tm.find? (fun q => q.1 == k)).map Prod.snd).getD []

/-- The `publicationAuthors` map of the flatten phase. -/
def buildPubAuthors (flat : List (Str × Entry)) : List (Str × List Str) :=
  flat.foldl (fun m p => paAdd m (pubKeyPhaseA p.2) p.1) []

/-- State of the flatten loop: the entry array (mutated in place by
enrichment), the seen arXiv accession and normalized DOI sets, and the
output list. -/
structure FlattenState where
  arr : List Entry
  seenIds : List Str
  seenDOIs : List Str
  out : List Entry
deriving DecidableEq

/-- The loop-local `entry.doi ? normalizeDoi(entry.doi) : null`. -/
def entryNormDoi (e : Entry) : Option Str :=
  if optTruthy e.doi then normalizeDoi e.doi else none

/-- The push-or-skip tail of the flatten loop body (PublicationMerger lines
301 to 314): the just-enriched entry is re-checked against the seen DOI set
using its possibly enrichment-filled DOI; a rediscovered duplicate is
skipped (the in-place mutation still being visible through the shared
array), otherwise the entry is appended to the output and the seen sets are
extended with its arXiv accession and nonempty normalized DOI. -/
def flattenCommit (st : FlattenState) (arr2 : List Entry) (arxivId : Option Str) (e2 : Entry) :
    FlattenState :=
  match entryNormDoi e2 with
  | some d =>
    if !d.isEmpty && st.seenDOIs.contains d then { st with arr := arr2 }
    else
      { arr := arr2,
        seenIds := match arxivId with | some a => st.seenIds ++ [a] | none => st.seenIds,
        seenDOIs := if !d.isEmpty then st.seenDOIs ++ [d] else st.seenDOIs,
        out := st.out ++ [e2] }
  | none =>
    { arr := arr2,
      seenIds := match arxivId with | some a => st.seenIds ++ [a] | none => st.seenIds,
      seenDOIs := st.seenDOIs,
      out := st.out ++ [e2] }

/-- The duplicate decision of one flatten-loop iteration (PublicationMerger
lines 264 to 299): an already-seen arXiv accession or nonempty normalized
DOI is a duplicate; otherwise, for entries without an arXiv accession, a
title group with several members keeps only its first complete member (or
its first member when none is complete), every other member being a
duplicate.  The filter reads the current, possibly already mutated, entry
array. -/
def flattenIsDup (tm : List (Str × List Nat)) (st : FlattenState) (i : Nat) (e : Entry) : Bool :=
  let arxivId := extractArxivId e.id
  let doi := entryNormDoi e
  let isDup :=
    (match arxivId with | some a => st.seenIds.contains a | none => false)
      || (match doi with | some d => !d.isEmpty && st.seenDOIs.contains d | none => false)
  if !isDup && arxivId.isNone then
    let dups := titleGroup tm (titleKeyOf e)
    if dups.length > 1 then
      let completeIdx := dups.filter (fun j => entryComplete ((st.arr.get? j).getD emptyEntry))
      match completeIdx.head? with
      | some best => !(best == i)
      | none =>
        match dups.head? with
        | some first => !(first == i)
        | none => false
    else isDup
  else isDup

/-- One iteration of the flatten loop of
`PublicationMerger.mergePublications` (lines 264 to 315): the duplicate
checks, then enrichment (mutating the shared array) and the
post-enrichment commit. -/
def flattenStep (cfg : Config) (env : Env) (tm : List (Str × List Nat))
    (pa : List (Str × List Str)) (st : FlattenState) (idxRid : Nat × Str) : FlattenState :=
  if flattenIsDup tm st idxRid.1 ((st.arr.get? idxRid.1).getD emptyEntry) then st
  else
    flattenCommit st
      (st.arr.set idxRid.1 (enrichEntry cfg env pa ((st.arr.get? idxRid.1).getD emptyEntry)))
      (extractArxivId ((st.arr.get? idxRid.1).getD emptyEntry).id)
      (enrichEntry cfg env pa ((st.arr.get? idxRid.1).getD emptyEntry))

def mergePublicationsFlatten (cfg : Config) (env : Env) (merged : List (Str × List Entry)) :
    List Entry :=
  let flat := (merged.map (fun p => p.2.map (fun e => (p.1, e)))).flatten
  let tm := buildTitleMap flat
  let pa := buildPubAuthors flat
  let st0 : FlattenState := ⟨flat.map Prod.snd, [], [], []⟩
  ((flat.map Prod.fst).enum.foldl (flattenStep cfg env tm pa) st0).out



/-- The loop key of an output record used by claim C1: its nonempty
normalized DOI, with an empty normalization counting as absent (the code
treats the empty string as falsy at every guard). -/
def outDoiKey (e : Entry) : Option Str :=
  match entryNormDoi e with
  | some d => if d = [] then none else some d
  | none => none

/-- C9 fixture: an arXiv entry under accession version v1. -/
def e91 : Entry := { emptyEntry with
  id := some (str "http://arxiv.org/abs/1234.5678v1")
  title := some (str "Same Title")
  summary := some (str "abs")
  authors := some (str "A B") }

/-- C9 fixture: the same work under accession version v2. -/
def e92 : Entry := { emptyEntry with
  id := some (str "http://arxiv.org/abs/1234.5678v2")
  title := some (str "Same Title")
  summary := some (str "abs")
  authors := some (str "A B") }

/-- C1 fixture: a record with a bare DOI code (mixed case). -/
def e11 : Entry := { emptyEntry with
  id := some (str "a1")
  title := some (str "T one")
  doi := some (str "10.1000/XYZ") }

/-- C1 fixture: the same DOI in full resolver-URL spelling. -/
def e12 : Entry := { emptyEntry with
  id := some (str "a2")
  title := some (str "T two")
  doi := some (str "https://doi.org/10.1000/xyz") }

/-- C2 fixture: a roster with two researchers. -/
def cfgC2 : Config := { emptyConfig with
  basics := [(str "1", ⟨str "Alice", []⟩), (str "2", ⟨str "Bob", []⟩)] }

/-- C2 fixture: an oracle whose CrossRef title-and-author search resolves
every query to the same DOI. -/
def envC2 : Env := { emptyEnv with
  crossrefSearchTA := fun _ _ => some ⟨some (str "https://doi.org/10.1/x"), none, none, none⟩ }

/-- C2 fixture: researcher 1's orcid-only record (distinct title t1). -/
def eA2 : Entry := { emptyEntry with
  id := some (str "orcid:1-t1")
  title := some (str "t1")
  authors := some [] }

/-- C2 fixture: researcher 2's orcid-only record (distinct title t2). -/
def eB2 : Entry := { emptyEntry with
  id := some (str "orcid:2-t2")
  title := some (str "t2")
  authors := some [] }

/-- C3 fixture: a record without an abstract carrying DOI 10.1/z. -/
def eA3 : Entry := { emptyEntry with
  id := some (str "x1")
  doi := some (str "10.1/z")
  title := some (str "TA")
  authors := some (str "A")
  journal_ref := some (str "J") }

/-- C3 fixture: a record with an abstract carrying the same DOI under a
different title. -/
def eB3 : Entry := { emptyEntry with
  id := some (str "x2")
  doi := some (str "10.1/z")
  title := some (str "TB")
  summary := some (str "An abstract")
  authors := some (str "B") }

/-- C4 fixture: a roster registering J. Smith as a variant of John Smith. -/
def cfgC4 : Config := { emptyConfig with
  basics := [(str "1", ⟨str "John Smith", [str "J. Smith"]⟩)] }

/-- C4 fixture: a record entering enrichment with nonempty authors and
abstract. -/
def eC4 : Entry := { emptyEntry with
  id := some (str "x1")
  title := some (str "T")
  authors := some (str "J. Smith")
  summary := some (str "s") }

/-- The locally derived authors value of a record entering enrichment: the
result of the purely local steps (roster seeding, contributor and citation
merge, name normalization) before any network lookup can contribute. -/
def localAuthors (cfg : Config) (e : Entry) : Option Str :=
  (enrichStepNormalize cfg (enrichStepOrcidMeta (enrichStepSeedAuthors cfg e))).authors

/-- C4 fixture: an oracle whose every lookup returns data, to witness that
fetched data cannot overwrite locally present authors or abstract. -/
def envC4junk : Env where
  crossrefFetchMetadata := fun _ => ⟨some (str "Fetched Author"), some (str "Fetched abstract")⟩
  arxivSearchTA := fun _ _ =>
    some ⟨some (str "http://arxiv.org/abs/9999.0001v1"), some (str "10.9/junk"),
          some (str "Fetched summary"), some (str "Fetched Author"), some [str "cs.AI"]⟩
  crossrefSearchTA := fun _ _ =>
    some ⟨some (str "https://doi.org/10.9/junk"), some (str "Fetched Author"),
          some (str "Fetched summary"), some (str "Fetched J 1, 2 (2024)")⟩
  inferJournalRef := fun _ _ => some (str "Inferred J 1, 2 (2024)")
  arxivSearchByDOI := fun _ => some (str "9999.0001v1")

/-- C4 fixture: an orcid record entering enrichment with nonempty authors
and abstract, exercising the search path under the junk oracle. -/
def eC4b : Entry := { emptyEntry with
  id := some (str "orcid:1-W")
  title := some (str "T")
  authors := some (str "J. Smith")
  summary := some (str "s") }

/-- C3 fixture: an incomplete record (no abstract, no journal reference)
under the shared title. -/
def eC3 : Entry := { emptyEntry with
  id := some (str "x1")
  title := some (str "Same Title")
  authors := some (str "A") }

/-- C3 fixture: a complete record (with an abstract) under the shared
title. -/
def eD3 : Entry := { emptyEntry with
  id := some (str "x2")
  title := some (str "Same Title")
  authors := some (str "B")
  summary := some (str "abs") }

/-! ### Helper lemmas about the JS string primitives -/

theorem dropWhile_idem (p : Char → Bool) (l : Str) :
    List.dropWhile p (List.dropWhile p l) = List.dropWhile p l := by
  induction l with
  | nil => simp
  | cons c t ih =>
    by_cases h : p c
    · simp [List.dropWhile, h, ih]
    · simp [List.dropWhile, h]

theorem not_head_of_dropWhile_eq (p : Char → Bool) (c : Char) (t : Str)
    (h : List.dropWhile p (c :: t) = c :: t) : ¬ p c = true := by
  intro hc
  have h1 : List.dropWhile p (c :: t) = List.dropWhile p t := by
    simp [List.dropWhile, hc]
  have h2 : (List.dropWhile p t).length ≤ t.length :=
    (List.dropWhile_sublist p).length_le
  rw [h] at h1
  have := congrArg List.length h1
  simp at this
  omega

theorem dropWhile_rev_fix (p : Char → Bool) (A : Str) (hA : List.dropWhile p A = A) :
    List.dropWhile p (A.reverse.dropWhile p).reverse = (A.reverse.dropWhile p).reverse := by
  set T := A.reverse.takeWhile p with hT
  set D := A.reverse.dropWhile p with hD
  cases hB : D.reverse with
  | nil => simp [hB]
  | cons c r =>
    have hdecomp : T ++ D = A.reverse := List.takeWhile_append_dropWhile p A.reverse
    have h3 : A = D.reverse ++ T.reverse := by
      have h4 : (T ++ D).reverse = A := by rw [hdecomp]; exact List.reverse_reverse A
      rw [← h4, List.reverse_append]
    have h5 : A = c :: (r ++ T.reverse) := by rw [h3, hB]; simp
    have hch : ¬ p c = true := by
      apply not_head_of_dropWhile_eq p c (r ++ T.reverse)
      rw [h5] at hA
      exact hA
    simp [List.dropWhile, hch]

theorem jsTrim_idem (s : Str) : jsTrim (jsTrim s) = jsTrim s := by
  unfold jsTrim
  have h1 : List.dropWhile Char.isWhitespace
      (((s.dropWhile Char.isWhitespace).reverse.dropWhile Char.isWhitespace).reverse)
      = ((s.dropWhile Char.isWhitespace).reverse.dropWhile Char.isWhitespace).reverse :=
    dropWhile_rev_fix _ _ (dropWhile_idem _ s)
  rw [h1, List.reverse_reverse, dropWhile_idem]

theorem mem_jsTrim {x : Char} {s : Str} (h : x ∈ jsTrim s) : x ∈ s := by
  unfold jsTrim at h
  rw [List.mem_reverse] at h
  have h2 := (List.dropWhile_sublist Char.isWhitespace).mem h
  rw [List.mem_reverse] at h2
  exact (List.dropWhile_sublist Char.isWhitespace).mem h2

theorem jsTrim_cons_ws {c : Char} (hc : Char.isWhitespace c = true) (s : Str) :
    jsTrim (c :: s) = jsTrim s := by
  unfold jsTrim
  simp [List.dropWhile, hc]

theorem splitOnChar_ne_nil (sep : Char) (s : Str) : splitOnChar sep s ≠ [] := by
  cases s with
  | nil => simp [splitOnChar]
  | cons c cs =>
    unfold splitOnChar
    by_cases h : c = sep
    · simp [h]
    · simp [h]
      cases hs : splitOnChar sep cs <;> simp

theorem not_mem_of_mem_splitOnChar {sep : Char} {s : Str} :
    ∀ a ∈ splitOnChar sep s, sep ∉ a := by
  induction s with
  | nil => intro a ha; simp [splitOnChar] at ha; simp [ha]
  | cons c cs ih =>
    intro a ha
    unfold splitOnChar at ha
    by_cases h : c = sep
    · simp [h] at ha
      rcases ha with ha | ha
      · simp [ha]
      · exact ih a ha
    · simp [h] at ha
      cases hs : splitOnChar sep cs with
      | nil => exact absurd hs (splitOnChar_ne_nil sep cs)
      | cons b bs =>
        rw [hs] at ha
        simp at ha
        rcases ha with ha | ha
        · have hb : sep ∉ b := ih b (by rw [hs]; exact List.mem_cons_self b bs)
          rw [ha]
          intro hmem
          rcases List.mem_cons.mp hmem with h1 | h1
          · exact h (h1.symm)
          · exact hb h1
        · exact ih a (by rw [hs]; exact List.mem_cons_of_mem b ha)

theorem splitOnChar_of_not_mem {sep : Char} {s : Str} (h : sep ∉ s) :
    splitOnChar sep s = [s] := by
  induction s with
  | nil => simp [splitOnChar]
  | cons c cs ih =>
    have hc : ¬ c = sep := fun hcs => h (hcs ▸ List.mem_cons_self c cs)
    have hcs : sep ∉ cs := fun hmem => h (List.mem_cons_of_mem c hmem)
    unfold splitOnChar
    simp [hc, ih hcs]

theorem splitOnChar_append {sep : Char} {x r : Str} (hx : sep ∉ x) :
    splitOnChar sep (x ++ sep :: r) = x :: splitOnChar sep r := by
  induction x with
  | nil => simp [splitOnChar]
  | cons c cs ih =>
    have hc : ¬ c = sep := fun hcs => hx (hcs ▸ List.mem_cons_self c cs)
    have hcs : sep ∉ cs := fun hmem => hx (List.mem_cons_of_mem c hmem)
    show splitOnChar sep (c :: (cs ++ sep :: r)) = _
    conv_lhs => unfold splitOnChar
    rw [if_neg hc, ih hcs]

theorem split_join (n : Str) (rest : List Str) (hn : (',' : Char) ∉ n)
    (hrest : ∀ m ∈ rest, (',' : Char) ∉ m) :
    splitOnChar ',' (joinSep (str ", ") (n :: rest))
      = n :: rest.map (fun m => ' ' :: m) := by
  induction rest generalizing n with
  | nil => simp [joinSep, splitOnChar_of_not_mem hn]
  | cons r rs ih =>
    have hsep : str ", " = [',', ' '] := rfl
    have h1 : joinSep (str ", ") (n :: r :: rs) = n ++ ',' :: ' ' :: joinSep (str ", ") (r :: rs) := by
      show n ++ str ", " ++ joinSep (str ", ") (r :: rs) = _
      rw [hsep]; simp
    rw [h1, splitOnChar_append hn]
    have h2 : splitOnChar ',' (joinSep (str ", ") (r :: rs)) = r :: rs.map (fun m => ' ' :: m) :=
      ih r (hrest r (List.mem_cons_self r rs)) (fun m hm => hrest m (List.mem_cons_of_mem r hm))
    unfold splitOnChar
    simp only [h2]
    simp

theorem lookupOr_value_mem {m : List (Str × Str)} {t c : Str}
    (h : objGet m t = some c) : ∃ p ∈ m, p.2 = c := by
  unfold objGet at h
  cases hf : m.find? (fun p => p.1 == t) with
  | none => rw [hf] at h; simp at h
  | some p =>
    rw [hf] at h
    simp at h
    exact ⟨p, List.mem_of_find?_eq_some hf, h⟩

theorem processed_fix {m : List (Str × Str)}
    (hv : ∀ p ∈ m, (',' : Char) ∉ p.2 ∧ jsTrim p.2 = p.2 ∧ lookupOr m p.2 = p.2)
    {a : Str} (ha : (',' : Char) ∉ a) :
    (',' : Char) ∉ lookupOr m (jsTrim a)
      ∧ jsTrim (lookupOr m (jsTrim a)) = lookupOr m (jsTrim a)
      ∧ lookupOr m (lookupOr m (jsTrim a)) = lookupOr m (jsTrim a) := by
  have hself : (objGet m (jsTrim a) = none ∨ objGet m (jsTrim a) = some []) →
      lookupOr m (jsTrim a) = jsTrim a := by
    intro h
    unfold lookupOr
    rcases h with h | h <;> simp [h]
  cases h : objGet m (jsTrim a) with
  | none =>
    have he : lookupOr m (jsTrim a) = jsTrim a := hself (Or.inl h)
    refine ⟨?_, ?_, ?_⟩
    · rw [he]; intro hc; exact ha (mem_jsTrim hc)
    · rw [he, jsTrim_idem]
    · rw [he, he]
  | some c =>
    by_cases hc : c = []
    · have he : lookupOr m (jsTrim a) = jsTrim a := hself (Or.inr (hc ▸ h))
      refine ⟨?_, ?_, ?_⟩
      · rw [he]; intro hmem; exact ha (mem_jsTrim hmem)
      · rw [he, jsTrim_idem]
      · rw [he, he]
    · have he : lookupOr m (jsTrim a) = c := by unfold lookupOr; simp [h, hc]
      obtain ⟨p, hp, hpc⟩ := lookupOr_value_mem h
      obtain ⟨h1, h2, h3⟩ := hv p hp
      rw [hpc] at h1 h2 h3
      rw [he]
      exact ⟨h1, h2, h3⟩

theorem norm_eq (m : List (Str × Str)) (s : Str) (hs : s ≠ []) :
    normalizeAuthorNames m s
      = joinSep (str ", ") (((splitOnChar ',' s).map jsTrim).map (lookupOr m)) := by
  unfold normalizeAuthorNames
  rw [if_neg hs]

theorem norm_split_key (m : List (Str × Str))
    (hv : ∀ p ∈ m, (',' : Char) ∉ p.2 ∧ jsTrim p.2 = p.2 ∧ lookupOr m p.2 = p.2)
    (s : Str) (hs : s ≠ []) :
    (splitOnChar ',' (normalizeAuthorNames m s)).map jsTrim
      = ((splitOnChar ',' s).map jsTrim).map (lookupOr m) := by
  cases hsp : splitOnChar ',' s with
  | nil => exact absurd hsp (splitOnChar_ne_nil ',' s)
  | cons a as =>
    have hcf : ∀ x ∈ a :: as, (',' : Char) ∉ x := fun x hx =>
      not_mem_of_mem_splitOnChar x (hsp ▸ hx)
    have hprops : ∀ x ∈ a :: as,
        (',' : Char) ∉ lookupOr m (jsTrim x)
          ∧ jsTrim (lookupOr m (jsTrim x)) = lookupOr m (jsTrim x)
          ∧ lookupOr m (lookupOr m (jsTrim x)) = lookupOr m (jsTrim x) :=
      fun x hx => processed_fix hv (hcf x hx)
    have hnorm : normalizeAuthorNames m s
        = joinSep (str ", ")
            (lookupOr m (jsTrim a) :: as.map (fun x => lookupOr m (jsTrim x))) := by
      rw [norm_eq m s hs, hsp]
      simp only [List.map_cons, List.map_map]
      rfl
    have hsplit : splitOnChar ',' (normalizeAuthorNames m s)
        = lookupOr m (jsTrim a)
            :: (as.map (fun x => lookupOr m (jsTrim x))).map (fun x => ' ' :: x) := by
      rw [hnorm]
      apply split_join
      · exact (hprops a (List.mem_cons_self a as)).1
      · intro x hx
        obtain ⟨y, hy, rfl⟩ := List.mem_map.mp hx
        exact (hprops y (List.mem_cons_of_mem a hy)).1
    rw [hsplit]
    simp only [List.map_cons, List.map_map, Function.comp]
    rw [(hprops a (List.mem_cons_self a as)).2.1]
    congr 1
    apply List.map_congr_left
    intro x hx
    show jsTrim (' ' :: lookupOr m (jsTrim x)) = lookupOr m (jsTrim x)
    rw [jsTrim_cons_ws (by decide : Char.isWhitespace ' ' = true)]
    exact (hprops x (List.mem_cons_of_mem a hx)).2.1


/-- C6: the author-name normalizer splits on commas, trims each name,
substitutes registered variants (and only those) preserving author order and
count, and is idempotent.  This holds under the stated well-formedness of the
variant table: every canonical form is comma-free, trimmed, and itself a
fixpoint of the substitution.  (Without that proviso idempotence fails, see
the counterexample.)  The second conjunct recovers, from the output string,
exactly the per-author substitution applied in input order. -/
theorem C6_author_normalizer (m : List (Str × Str))
    (hv : ∀ p ∈ m, (',' : Char) ∉ p.2 ∧ jsTrim p.2 = p.2 ∧ lookupOr m p.2 = p.2) :
    (∀ s, normalizeAuthorNames m (normalizeAuthorNames m s) = normalizeAuthorNames m s) ∧
    (∀ s, s ≠ [] →
      (splitOnChar ',' (normalizeAuthorNames m s)).map jsTrim
        = ((splitOnChar ',' s).map jsTrim).map (lookupOr m)) := by
  refine ⟨?_, fun s hs => norm_split_key m hv s hs⟩
  intro s
  by_cases hs : s = []
  · subst hs; rfl
  · by_cases hJ : normalizeAuthorNames m s = []
    · rw [hJ]
      rfl
    · rw [norm_eq m _ hJ, norm_split_key m hv s hs, norm_eq m s hs]
      congr 1
      simp only [List.map_map]
      apply List.map_congr_left
      intro x hx
      show lookupOr m (lookupOr m (jsTrim x)) = lookupOr m (jsTrim x)
      exact (processed_fix hv (not_mem_of_mem_splitOnChar x hx)).2.2

/-- C6 counterexample: with the variant table built from basicsCexC6 the
normalizer maps X to Y on a first pass and Y further to Z on a second pass,
so normalize is not idempotent for every input, refuting the unconditional
idempotence part of the claim. -/
theorem C6_author_normalizer_cex :
    normalizeAuthorNames (buildNameVariantsMap basicsCexC6)
        (normalizeAuthorNames (buildNameVariantsMap basicsCexC6) (str "X"))
      ≠ normalizeAuthorNames (buildNameVariantsMap basicsCexC6) (str "X") := by decide

/-- C6 witness: the amended theorem applied at the spec example table. -/
theorem C6_author_normalizer_witness :
    normalizeAuthorNames mWitC6 (normalizeAuthorNames mWitC6 (str "J. Smith, A. Jones"))
      = normalizeAuthorNames mWitC6 (str "J. Smith, A. Jones") :=
  (C6_author_normalizer mWitC6 (by decide)).1 (str "J. Smith, A. Jones")

/-- C7: the reference standardizer applies pass 1 (case-insensitive literal
replacement of each configured full journal name, in table order) strictly
before pass 2 (case-insensitive word-boundary pattern replacement, in table
order); with the abbreviation entry mapping Physical Review B to
Phys. Rev. B and the pattern entry Phys\\.?\\s*Rev\\.?\\s*B, both the full-name
spelling and the inconsistently spaced abbreviated spelling standardize to
Phys. Rev. B 109, 1 (2024). -/
theorem C7_reference_standardizer :
    standardizeJournalRef [(str "Physical Review B", str "Phys. Rev. B")]
        [(patPhysRevB, str "Phys. Rev. B")] (some (str "Physical Review B 109, 1 (2024)"))
      = some (str "Phys. Rev. B 109, 1 (2024)")
    ∧ standardizeJournalRef [(str "Physical Review B", str "Phys. Rev. B")]
        [(patPhysRevB, str "Phys. Rev. B")] (some (str "Phys Rev B 109, 1 (2024)"))
      = some (str "Phys. Rev. B 109, 1 (2024)") := by
  constructor
  · decide
  · decide
theorem crFoldStep_inv (searchWords : List Str) (acc : Option CRItem × Nat × Nat) (item : CRItem)
    (hacc : ∀ it, acc.1 = some it →
      acc.2.2 = searchWords.length ∧ acc.2.1 = crMatchesItem searchWords it
        ∧ 5 * acc.2.1 > 3 * searchWords.length) :
    ∀ it, (crFoldStep searchWords acc item).1 = some it →
      (crFoldStep searchWords acc item).2.2 = searchWords.length
        ∧ (crFoldStep searchWords acc item).2.1 = crMatchesItem searchWords it
        ∧ 5 * (crFoldStep searchWords acc item).2.1 > 3 * searchWords.length := by
  intro it
  unfold crFoldStep
  cases ht : item.titles.head? with
  | none => exact hacc it
  | some t0 =>
    by_cases h0 : t0 = []
    · simp only [if_pos h0]
      exact hacc it
    · simp only [if_neg h0]
      by_cases hc : (decide (crMatches searchWords (splitOnChar ' ' (crItemClean t0)) * acc.2.2
              > acc.2.1 * searchWords.length)
            && decide (5 * crMatches searchWords (splitOnChar ' ' (crItemClean t0))
              > 3 * searchWords.length)) = true
      · simp only [hc, if_true]
        intro hsome
        have hit : item = it := by simpa using hsome
        subst hit
        refine ⟨by trivial, ?_, ?_⟩
        · show crMatches searchWords (splitOnChar ' ' (crItemClean t0)) = crMatchesItem searchWords item
          unfold crMatchesItem
          rw [ht]
          rfl
        · exact of_decide_eq_true ((Bool.and_eq_true _ _).mp hc).2
      · simp only [hc]
        simp only [Bool.false_eq_true, if_false]
        exact hacc it

theorem crFold_inv (searchWords : List Str) (items : List CRItem)
    (acc : Option CRItem × Nat × Nat)
    (hacc : ∀ it, acc.1 = some it →
      acc.2.2 = searchWords.length ∧ acc.2.1 = crMatchesItem searchWords it
        ∧ 5 * acc.2.1 > 3 * searchWords.length) :
    ∀ it, (items.foldl (crFoldStep searchWords) acc).1 = some it →
      5 * crMatchesItem searchWords it > 3 * searchWords.length := by
  induction items generalizing acc with
  | nil =>
    intro it hit
    have h := hacc it hit
    calc 3 * searchWords.length < 5 * acc.2.1 := h.2.2
    _ = 5 * crMatchesItem searchWords it := by rw [h.2.1]
  | cons item rest ih =>
    intro it hit
    exact ih (crFoldStep searchWords acc item) (crFoldStep_inv searchWords acc item hacc) it hit

/-- C5: a fuzzy-search candidate is accepted only when its word-overlap score
strictly exceeds 0.6 (first conjunct, for every input); a candidate scoring
exactly 0.6 is rejected (second conjunct, score 3/5 on a five-word query);
a candidate scoring 0.61 with no competitor is accepted (third conjunct,
score 61/100 on a hundred-word query). -/
theorem C5_fuzzy_threshold :
    (∀ (rawTitle : Str) (items : List CRItem) (it : CRItem),
      crossrefBestMatch rawTitle items = some it → (3 : ℚ) / 5 < crScoreQ rawTitle it)
    ∧ crossrefBestMatch (str "long long long tw tw") [⟨[str "long"]⟩] = none
    ∧ crossrefBestMatch c5title61 [⟨[str "long"]⟩] = some ⟨[str "long"]⟩ := by
  refine ⟨?_, by decide, by decide⟩
  intro rawTitle items it h
  have hscore : 5 * crMatchesItem (crSearchWords rawTitle) it
      > 3 * (crSearchWords rawTitle).length := by
    apply crFold_inv (crSearchWords rawTitle) items (none, 0, 1) ?_ it h
    intro it2 hit2
    simp at hit2
  have hlen : 0 < (crSearchWords rawTitle).length :=
    List.length_pos.mpr (splitOnChar_ne_nil ' ' _)
  unfold crScoreQ
  rw [div_lt_div_iff₀ (by norm_num) (by exact_mod_cast hlen)]
  have h2 : (3 * (crSearchWords rawTitle).length : ℕ)
      < crMatchesItem (crSearchWords rawTitle) it * 5 := by omega
  exact_mod_cast h2

/-- C5 witness: the acceptance bound instantiated at the accepted 0.61
candidate. -/
theorem C5_fuzzy_threshold_witness :
    (3 : ℚ) / 5 < crScoreQ c5title61 ⟨[str "long"]⟩ :=
  C5_fuzzy_threshold.1 c5title61 [⟨[str "long"]⟩] ⟨[str "long"]⟩ (by decide)
theorem takeWhile_all_append {p : Char → Bool} {l1 : Str} (h1 : l1.all p = true)
    {x : Char} (hx : p x = false) (l2 : Str) :
    List.takeWhile p (l1 ++ x :: l2) = l1 := by
  induction l1 with
  | nil => simp [List.takeWhile, hx]
  | cons c cs ih =>
    simp at h1
    simp [List.takeWhile, h1.1, ih (by simp; exact fun a ha => h1.2 a ha)]

theorem doiNumSlashTail_shaped {s tok : Str} (h : doiNumSlashTail s = some tok) :
    doiShaped tok = true := by
  unfold doiNumSlashTail at h
  by_cases hnum : s.takeWhile isDoiNumChar = []
  · simp [hnum] at h
  · simp only [if_neg hnum] at h
    cases hdrop : s.drop (s.takeWhile isDoiNumChar).length with
    | nil => rw [hdrop] at h; simp at h
    | cons c rest =>
      rw [hdrop] at h
      by_cases hc : c = '/'
      · subst hc
        by_cases htl : rest.takeWhile isDoiTailChar = []
        · simp [htl] at h
        · simp only [if_neg htl] at h
          have htok : tok = s.takeWhile isDoiNumChar ++ '/' :: rest.takeWhile isDoiTailChar := by
            injection h with h; exact h.symm
          subst htok
          unfold doiShaped
          have hslash : isDoiNumChar '/' = false := by decide
          rw [takeWhile_all_append List.all_takeWhile hslash]
          simp only [List.drop_left]
          simp [hnum, htl, List.all_takeWhile]
      · cases c; simp_all

theorem doiSepScan_shaped {s tok : Str} (h : doiSepScan s = some tok) :
    doiShaped tok = true := by
  induction s with
  | nil => exact doiNumSlashTail_shaped (by simpa [doiSepScan] using h)
  | cons c cs ih =>
    unfold doiSepScan at h
    by_cases hc : (c = ':' || c = '.' || c.isWhitespace) = true
    · rw [if_pos hc] at h
      cases hscan : doiSepScan cs with
      | some t2 => rw [hscan] at h; injection h with h; subst h; exact ih hscan
      | none => rw [hscan] at h; exact doiNumSlashTail_shaped h
    · rw [if_neg hc] at h
      exact doiNumSlashTail_shaped h

theorem parseGenericDoiScan_shaped {s tok : Str} (h : parseGenericDoiScan s = some tok) :
    doiShaped tok = true := by
  induction s with
  | nil => simp [parseGenericDoiScan] at h
  | cons c cs ih =>
    unfold parseGenericDoiScan at h
    cases hkw : doiKwTail (c :: cs) with
    | none => rw [hkw] at h; exact ih h
    | some rest =>
      simp only [hkw] at h
      cases hscan : doiSepScan rest with
      | some t2 => simp only [hscan] at h; injection h with h; subst h; exact doiSepScan_shaped hscan
      | none => simp only [hscan] at h; exact ih h

/-- C8: the citation sub-parser is total by construction, and for every
citation whose type is neither of the two structured formats the result has
null authors and citation reference, and a persistent id that is either null
or a resolver-prefixed DOI-shaped token extracted by pattern match from the
raw text.  (A falsy citation or empty text parses to all-null, which the
statement covers as the null-doi case.) -/
theorem C8_citation_fallback (ctype : Option Str) (text : Str)
    (h1 : citTypeOf ctype ≠ str "bibtex") (h2 : citTypeOf ctype ≠ str "ris") :
    parseCitationData none = ⟨none, none, none⟩
    ∧ (parseCitationData (some ⟨ctype, text⟩)).authors = none
    ∧ (parseCitationData (some ⟨ctype, text⟩)).journal_ref = none
    ∧ ((parseCitationData (some ⟨ctype, text⟩)).doi = none
       ∨ ∃ tok, (parseCitationData (some ⟨ctype, text⟩)).doi = some (str "https://doi.org/" ++ tok)
           ∧ doiShaped tok = true) := by
  refine ⟨rfl, ?_⟩
  have hred : parseCitationData (some ⟨ctype, text⟩)
      = if text = [] then ⟨none, none, none⟩ else parseGeneric text := by
    unfold parseCitationData
    by_cases hv : text = []
    · simp [hv]
    · simp only [if_neg hv]
      rw [if_neg h1, if_neg h2]
  rw [hred]
  by_cases hv : text = []
  · simp [hv]
  · rw [if_neg hv]
    unfold parseGeneric
    cases hscan : parseGenericDoiScan text with
    | none => simp
    | some tok =>
      refine ⟨rfl, rfl, Or.inr ⟨tok, rfl, parseGenericDoiScan_shaped hscan⟩⟩

/-- C8 witness: a free-text citation with an embedded DOI. -/
theorem C8_citation_fallback_witness :
    (parseCitationData (some ⟨some (str "text"), str "See doi: 10.1000/ab12, page 3"⟩)).authors = none
    ∧ (parseCitationData (some ⟨some (str "text"), str "See doi: 10.1000/ab12, page 3"⟩)).journal_ref = none
    ∧ ((parseCitationData (some ⟨some (str "text"), str "See doi: 10.1000/ab12, page 3"⟩)).doi = none
       ∨ ∃ tok, (parseCitationData (some ⟨some (str "text"), str "See doi: 10.1000/ab12, page 3"⟩)).doi
             = some (str "https://doi.org/" ++ tok)
           ∧ doiShaped tok = true) :=
  (C8_citation_fallback (some (str "text")) (str "See doi: 10.1000/ab12, page 3")
    (by decide) (by decide)).2

/-- C9 counterexample: the dedup key captured by the accession regex keeps
the version suffix, so records differing only in version (v1 versus v2)
have distinct native keys and both survive into the final output, refuting
the claim that at most one of them appears. -/
theorem C9_version_dedup_cex :
    extractArxivId (some (str "http://arxiv.org/abs/1234.5678v1")) = some (str "1234.5678v1")
    ∧ extractArxivId (some (str "http://arxiv.org/abs/1234.5678v2")) = some (str "1234.5678v2")
    ∧ ¬ (mergePublicationsFlatten emptyConfig emptyEnv [(str "1", [e91, e92])]).length ≤ 1 := by
  refine ⟨by decide, by decide, by decide⟩

/-- C9 amended: the native identity key of a preprint-source record is the
full accession including any version suffix, so version-differing records
both appear in the output; the version suffix is stripped only when
deriving the primary-source URL (both survivors carry the same
version-stripped URL). -/
theorem C9_version_dedup :
    (mergePublicationsFlatten emptyConfig emptyEnv [(str "1", [e91, e92])]).map Entry.id
      = [some (str "http://arxiv.org/abs/1234.5678v1"),
         some (str "http://arxiv.org/abs/1234.5678v2")]
    ∧ (mergePublicationsFlatten emptyConfig emptyEnv [(str "1", [e91, e92])]).map Entry.arxiv_url
      = [some (str "https://arxiv.org/abs/1234.5678"), some (str "https://arxiv.org/abs/1234.5678")]
    ∧ stripVersion (str "1234.5678v2") = str "1234.5678" := by
  refine ⟨by decide, by decide, by decide⟩

/-- C2 counterexample: two records entering with different identity keys
(titles t1 and t2, no DOI) are both filled with the same persistent id by
enrichment (first conjunct shows the dropped record would have received that
id as well); the final output keeps exactly one record, but its
contributing-researcher set is only researcher 1 — researcher 2, who
contributed the dropped record, is not merged in, refuting the union part
of the claim. -/
theorem C2_post_enrich_union_cex :
    (enrichEntry cfgC2 envC2
        (buildPubAuthors [(str "1", eA2), (str "2", eB2)]) eB2).doi
      = some (str "https://doi.org/10.1/x")
    ∧ (mergePublicationsFlatten cfgC2 envC2 [(str "1", [eA2]), (str "2", [eB2])]).map
        Entry.author_ids = [[str "1"]]
    ∧ ¬ str "2" ∈ [str "1"] := by
  refine ⟨by decide, by decide, by decide⟩

/-- C2 amended: when enrichment fills the same persistent id into two
records that entered with different identity keys, the final output
contains exactly one record for that id (the first-processed one); the
survivor keeps only the researcher ids tracked under its own
post-enrichment key plus those name-matched from its own authors string —
the dropped record-only contributors are lost. -/
theorem C2_post_enrich_collapse :
    (mergePublicationsFlatten cfgC2 envC2 [(str "1", [eA2]), (str "2", [eB2])]).length = 1
    ∧ (mergePublicationsFlatten cfgC2 envC2 [(str "1", [eA2]), (str "2", [eB2])]).map Entry.doi
        = [some (str "https://doi.org/10.1/x")]
    ∧ (enrichEntry cfgC2 envC2 (buildPubAuthors [(str "1", eA2), (str "2", eB2)]) eA2).doi
        = some (str "https://doi.org/10.1/x")
    ∧ (enrichEntry cfgC2 envC2 (buildPubAuthors [(str "1", eA2), (str "2", eB2)]) eB2).doi
        = some (str "https://doi.org/10.1/x")
    ∧ (mergePublicationsFlatten cfgC2 envC2 [(str "1", [eA2]), (str "2", [eB2])]).map
        Entry.author_ids = [[str "1"]] := by
  refine ⟨by decide, by decide, by decide, by decide, by decide⟩

/-- C3 counterexample: two candidates for the same DOI identity key under
different titles, where only the second carries an abstract: DOI duplicate
suppression is first-seen-wins without any completeness comparison, so the
merge keeps the record without the abstract, refuting the claim for
DOI-keyed identity groups. -/
theorem C3_completeness_tiebreak_cex :
    (mergePublicationsFlatten emptyConfig emptyEnv [(str "1", [eA3, eB3])]).map Entry.id
      = [some (str "x1")]
    ∧ optBlank eA3.summary = true
    ∧ optTruthy eB3.summary = true
    ∧ normalizeDoi eA3.doi = normalizeDoi eB3.doi := by
  refine ⟨by decide, by decide, by decide, by decide⟩

theorem flattenStep_cases (cfg : Config) (env : Env) (tm : List (Str × List Nat))
    (pa : List (Str × List Str)) (st : FlattenState) (p : Nat × Str) :
    flattenStep cfg env tm pa st p = st
    ∨ flattenStep cfg env tm pa st p
        = flattenCommit st
            (st.arr.set p.1 (enrichEntry cfg env pa ((st.arr.get? p.1).getD emptyEntry)))
            (extractArxivId ((st.arr.get? p.1).getD emptyEntry).id)
            (enrichEntry cfg env pa ((st.arr.get? p.1).getD emptyEntry)) := by
  unfold flattenStep
  by_cases h : flattenIsDup tm st p.1 ((st.arr.get? p.1).getD emptyEntry) = true
  · left
    rw [if_pos h]
  · right
    rw [if_neg h]

theorem flattenCommit_inv (st : FlattenState) (arr2 : List Entry) (aid : Option Str) (e2 : Entry)
    (h1 : (st.out.filterMap outDoiKey).Nodup)
    (h2 : ∀ d ∈ st.out.filterMap outDoiKey, d ∈ st.seenDOIs) :
    ((flattenCommit st arr2 aid e2).out.filterMap outDoiKey).Nodup
    ∧ ∀ d ∈ (flattenCommit st arr2 aid e2).out.filterMap outDoiKey,
        d ∈ (flattenCommit st arr2 aid e2).seenDOIs := by
  unfold flattenCommit
  cases hnd : entryNormDoi e2 with
  | none =>
    have hkey : outDoiKey e2 = none := by unfold outDoiKey; rw [hnd]
    constructor
    · simp [List.filterMap_append, hkey, h1]
    · intro d hd
      simp only [List.filterMap_append] at hd
      simp [hkey] at hd
      exact h2 d (List.mem_filterMap.mpr hd)
  | some d0 =>
    by_cases hguard : (!d0.isEmpty && st.seenDOIs.contains d0) = true
    · simp only [hguard, if_true]
      exact ⟨h1, h2⟩
    · simp only [hguard]
      simp only [Bool.false_eq_true, if_false]
      by_cases hempty : d0.isEmpty = true
      · have hd0 : d0 = [] := by simpa using hempty
        have hkey : outDoiKey e2 = none := by unfold outDoiKey; rw [hnd]; simp [hd0]
        constructor
        · simp [List.filterMap_append, hkey, h1]
        · intro d hd
          simp only [List.filterMap_append] at hd
          simp [hkey] at hd
          simp [hempty]
          exact h2 d (List.mem_filterMap.mpr hd)
      · have hie : d0.isEmpty = false := by
          cases hh : d0.isEmpty
          · rfl
          · exact absurd hh hempty
        have hd0 : ¬ d0 = [] := by simpa using hempty
        have hkey : outDoiKey e2 = some d0 := by unfold outDoiKey; rw [hnd]; simp [hd0]
        have hnotseen : d0 ∉ st.seenDOIs := by
          intro hmem
          apply hguard
          simp [hie]
          exact hmem
        constructor
        · simp only [List.filterMap_append]
          rw [List.nodup_append]
          refine ⟨h1, by simp [hkey], ?_⟩
          intro a ha hb
          simp [hkey] at hb
          subst hb
          exact hnotseen (h2 a ha)
        · intro d hd
          simp only [List.filterMap_append, List.mem_append] at hd
          simp only [hie, Bool.not_false, Bool.true_and]
          rcases hd with hd | hd
          · exact List.mem_append_left _ (h2 d hd)
          · simp [hkey] at hd
            subst hd
            exact List.mem_append_right _ (by simp)

theorem flattenStep_inv (cfg : Config) (env : Env) (tm : List (Str × List Nat))
    (pa : List (Str × List Str)) (st : FlattenState) (p : Nat × Str)
    (h1 : (st.out.filterMap outDoiKey).Nodup)
    (h2 : ∀ d ∈ st.out.filterMap outDoiKey, d ∈ st.seenDOIs) :
    ((flattenStep cfg env tm pa st p).out.filterMap outDoiKey).Nodup
    ∧ ∀ d ∈ (flattenStep cfg env tm pa st p).out.filterMap outDoiKey,
        d ∈ (flattenStep cfg env tm pa st p).seenDOIs := by
  rcases flattenStep_cases cfg env tm pa st p with h | h
  · rw [h]; exact ⟨h1, h2⟩
  · rw [h]; exact flattenCommit_inv _ _ _ _ h1 h2

theorem flatten_fold_inv (cfg : Config) (env : Env) (tm : List (Str × List Nat))
    (pa : List (Str × List Str)) (l : List (Nat × Str)) (st : FlattenState)
    (h1 : (st.out.filterMap outDoiKey).Nodup)
    (h2 : ∀ d ∈ st.out.filterMap outDoiKey, d ∈ st.seenDOIs) :
    ((l.foldl (flattenStep cfg env tm pa) st).out.filterMap outDoiKey).Nodup := by
  induction l generalizing st with
  | nil => exact h1
  | cons p rest ih =>
    have h := flattenStep_inv cfg env tm pa st p h1 h2
    exact ih (flattenStep cfg env tm pa st p) h.1 h.2

/-- C1: in the final output of the merge-and-enrich run, the nonempty
normalized DOIs (case-folded, resolver-URL stripped, trimmed) of the
records are pairwise distinct, for every configuration, oracle and working
list; in particular a bare DOI code and the resolver-URL spelling of the
same DOI normalize alike (third conjunct) and collapse to a single output
record (second conjunct). -/
theorem C1_no_duplicate_doi :
    (∀ (cfg : Config) (env : Env) (merged : List (Str × List Entry)),
      ((mergePublicationsFlatten cfg env merged).filterMap outDoiKey).Nodup)
    ∧ (mergePublicationsFlatten emptyConfig emptyEnv [(str "1", [e11, e12])]).map Entry.doi
        = [some (str "10.1000/XYZ")]
    ∧ outDoiKey e11 = outDoiKey e12 := by
  refine ⟨?_, by decide, by decide⟩
  intro cfg env merged
  unfold mergePublicationsFlatten
  exact flatten_fold_inv cfg env _ _ _ _ (by simp) (by simp)

theorem dedup_step_nodup (acc : List Str) (x : Str) (h : acc.Nodup) :
    (if acc.contains x then acc else acc ++ [x]).Nodup := by
  by_cases hc : acc.contains x = true
  · rw [if_pos hc]; exact h
  · rw [if_neg hc]
    rw [List.nodup_append]
    refine ⟨h, by simp, ?_⟩
    intro a ha hb
    simp at hb
    subst hb
    exact hc (List.elem_iff.mpr ha)

theorem foldl_dedup_nodup (l : List Str) (acc : List Str) (h : acc.Nodup) :
    (l.foldl (fun acc x => if acc.contains x then acc else acc ++ [x]) acc).Nodup := by
  induction l generalizing acc with
  | nil => exact h
  | cons x rest ih => exact ih _ (dedup_step_nodup acc x h)

theorem jsSetDedup_nodup (l : List Str) : (jsSetDedup l).Nodup :=
  foldl_dedup_nodup l [] (by simp)

theorem jsSortStr_sorted (l : List Str) : (jsSortStr l).Sorted (· ≤ ·) :=
  List.sorted_insertionSort _ l

theorem jsSortStr_perm (l : List Str) : (jsSortStr l).Perm l :=
  List.perm_insertionSort _ l

theorem jsSortStr_nodup (l : List Str) (h : l.Nodup) : (jsSortStr l).Nodup :=
  ((jsSortStr_perm l).nodup_iff).mpr h

theorem sorted_nodup_pairwise_lt (l : List Str) (hs : l.Sorted (· ≤ ·)) (hn : l.Nodup) :
    List.Pairwise (fun a b : Str => a < b) l :=
  (List.Pairwise.and hs hn).imp (fun h => lt_of_le_of_ne h.1 h.2)

theorem author_ids_sorted_value (l : List Str) :
    List.Pairwise (fun a b : Str => a < b) (jsSortStr (jsSetDedup l)) :=
  sorted_nodup_pairwise_lt _ (jsSortStr_sorted _) (jsSortStr_nodup _ (jsSetDedup_nodup _))

theorem enrichStepJournalRef_author_ids (cfg : Config) (env : Env) (e : Entry) :
    (enrichStepJournalRef cfg env e).author_ids = e.author_ids := by
  unfold enrichStepJournalRef
  repeat' split
  all_goals rfl

theorem enrichStepUrls_author_ids (env : Env) (e : Entry) :
    (enrichStepUrls env e).author_ids = e.author_ids := by
  unfold enrichStepUrls
  dsimp only
  repeat' split
  all_goals rfl

theorem enrichStepFinalize_author_ids (cfg : Config) (e : Entry) :
    (enrichStepFinalize cfg e).author_ids = e.author_ids := by
  unfold enrichStepFinalize
  dsimp only
  repeat' split
  all_goals rfl

theorem enrichEntry_author_ids_pairwise (cfg : Config) (env : Env)
    (pa : List (Str × List Str)) (e : Entry) :
    List.Pairwise (fun a b : Str => a < b) (enrichEntry cfg env pa e).author_ids := by
  unfold enrichEntry
  rw [enrichStepFinalize_author_ids, enrichStepUrls_author_ids, enrichStepJournalRef_author_ids]
  unfold enrichStepAuthorIds
  exact author_ids_sorted_value _

theorem flattenCommit_out (st : FlattenState) (arr2 : List Entry) (aid : Option Str) (e2 : Entry) :
    (flattenCommit st arr2 aid e2).out = st.out
    ∨ (flattenCommit st arr2 aid e2).out = st.out ++ [e2] := by
  unfold flattenCommit
  repeat' split
  all_goals first
  | exact Or.inl rfl
  | exact Or.inr rfl

theorem flatten_out_prop (cfg : Config) (env : Env) (tm : List (Str × List Nat))
    (pa : List (Str × List Str)) (P : Entry → Prop)
    (hP : ∀ e, P (enrichEntry cfg env pa e)) (l : List (Nat × Str)) (st : FlattenState)
    (hst : ∀ x ∈ st.out, P x) :
    ∀ x ∈ (l.foldl (flattenStep cfg env tm pa) st).out, P x := by
  induction l generalizing st with
  | nil => exact hst
  | cons p rest ih =>
    apply ih
    rcases flattenStep_cases cfg env tm pa st p with h | h
    · rw [h]; exact hst
    · rw [h]
      rcases flattenCommit_out st
          (st.arr.set p.1 (enrichEntry cfg env pa ((st.arr.get? p.1).getD emptyEntry)))
          (extractArxivId ((st.arr.get? p.1).getD emptyEntry).id)
          (enrichEntry cfg env pa ((st.arr.get? p.1).getD emptyEntry)) with ho | ho
      · rw [ho]; exact hst
      · rw [ho]
        intro x hx
        rcases List.mem_append.mp hx with hx | hx
        · exact hst x hx
        · have : x = enrichEntry cfg env pa ((st.arr.get? p.1).getD emptyEntry) := by
            simpa using hx
          rw [this]
          exact hP _

/-- C10: every record of the final output carries an author_ids list that
is strictly ascending (hence duplicate-free and sorted), for every
configuration, oracle, and working list, independent of discovery order:
enrichment always sets author_ids to the sorted deduplication of the
tracked and name-matched researcher ids and no later step touches it. -/
theorem C10_author_ids_sorted (cfg : Config) (env : Env) (merged : List (Str × List Entry)) :
    ∀ e ∈ mergePublicationsFlatten cfg env merged,
      List.Pairwise (fun a b : Str => a < b) e.author_ids := by
  intro e he
  unfold mergePublicationsFlatten at he
  refine flatten_out_prop cfg env _ _
    (fun x => List.Pairwise (fun a b : Str => a < b) x.author_ids)
    (fun e0 => enrichEntry_author_ids_pairwise cfg env _ e0) _ _ (by simp) e he

/-- C10 witness: the head of a concrete run satisfies the property. -/
theorem C10_author_ids_sorted_witness :
    List.Pairwise (fun a b : Str => a < b)
      ((mergePublicationsFlatten cfgC2 envC2
          [(str "1", [eA2]), (str "2", [eB2])]).headD emptyEntry).author_ids :=
  C10_author_ids_sorted cfgC2 envC2 [(str "1", [eA2]), (str "2", [eB2])] _ (by decide)

theorem optBlank_false_truthy (o : Option Str) (h : optBlank o = false) :
    optTruthy o = true := by
  cases o with
  | none => simp [optBlank] at h
  | some s =>
    simp [optBlank] at h
    simp [optTruthy, h.1]

theorem enrichStepSeedAuthors_summary (cfg : Config) (e : Entry) :
    (enrichStepSeedAuthors cfg e).summary = e.summary := by
  unfold enrichStepSeedAuthors
  repeat' split
  all_goals rfl

theorem orcidContribMerge_summary (e : Entry) :
    (orcidContribMerge e).summary = e.summary := by
  unfold orcidContribMerge
  repeat' split
  all_goals rfl

theorem orcidCitationFill_summary (e : Entry) :
    (orcidCitationFill e).summary = e.summary := by
  unfold orcidCitationFill
  try dsimp only
  repeat' split
  all_goals rfl

theorem enrichStepOrcidMeta_summary (e : Entry) :
    (enrichStepOrcidMeta e).summary = e.summary := by
  unfold enrichStepOrcidMeta
  split
  · split
    · rw [orcidCitationFill_summary, orcidContribMerge_summary]
    · rfl
  · rfl

theorem enrichStepNormalize_summary (cfg : Config) (e : Entry) :
    (enrichStepNormalize cfg e).summary = e.summary := by
  unfold enrichStepNormalize
  split
  all_goals rfl

theorem enrichStepCrossrefFetch_summary (env : Env) (e : Entry)
    (h : optBlank e.summary = false) :
    (enrichStepCrossrefFetch env e).summary = e.summary := by
  unfold enrichStepCrossrefFetch
  try dsimp only
  repeat' split
  all_goals simp_all

theorem enrichStepCrossrefFetch_authors (env : Env) (e : Entry)
    (h : optBlank e.authors = false) :
    (enrichStepCrossrefFetch env e).authors = e.authors := by
  unfold enrichStepCrossrefFetch
  try dsimp only
  repeat' split
  all_goals simp_all

theorem fillDoi_authors (d : Option Str) (e : Entry) :
    (fillDoi d e).authors = e.authors := by
  unfold fillDoi
  split
  all_goals rfl

theorem fillDoi_summary (d : Option Str) (e : Entry) :
    (fillDoi d e).summary = e.summary := by
  unfold fillDoi
  split
  all_goals rfl

theorem fillSummary_authors (s : Option Str) (e : Entry) :
    (fillSummary s e).authors = e.authors := by
  unfold fillSummary
  split
  all_goals rfl

theorem fillSummary_summary (s : Option Str) (e : Entry)
    (h : optTruthy e.summary = true) :
    (fillSummary s e).summary = e.summary := by
  simp [fillSummary, h]

theorem fillBlankAuthors_authors (a : Option Str) (e : Entry)
    (h : optBlank e.authors = false) :
    (fillBlankAuthors a e).authors = e.authors := by
  simp [fillBlankAuthors, h]

theorem fillBlankAuthors_summary (a : Option Str) (e : Entry) :
    (fillBlankAuthors a e).summary = e.summary := by
  unfold fillBlankAuthors
  split
  all_goals rfl

theorem fillJournalRef_authors (j : Option Str) (e : Entry) :
    (fillJournalRef j e).authors = e.authors := by
  unfold fillJournalRef
  split
  all_goals rfl

theorem fillJournalRef_summary (j : Option Str) (e : Entry) :
    (fillJournalRef j e).summary = e.summary := by
  unfold fillJournalRef
  split
  all_goals rfl

theorem arxivIdFill_authors (rid : Option Str) (e : Entry) :
    (arxivIdFill rid e).authors = e.authors := by
  unfold arxivIdFill
  repeat' split
  all_goals rfl

theorem arxivIdFill_summary (rid : Option Str) (e : Entry) :
    (arxivIdFill rid e).summary = e.summary := by
  unfold arxivIdFill
  repeat' split
  all_goals rfl

theorem categoriesFill_authors (cats : Option (List Str)) (e : Entry) :
    (categoriesFill cats e).authors = e.authors := by
  unfold categoriesFill
  repeat' split
  all_goals rfl

theorem categoriesFill_summary (cats : Option (List Str)) (e : Entry) :
    (categoriesFill cats e).summary = e.summary := by
  unfold categoriesFill
  repeat' split
  all_goals rfl

theorem arxivFill_authors (r : ArxivResult) (e : Entry)
    (h : optBlank e.authors = false) :
    (arxivFill r e).authors = e.authors := by
  unfold arxivFill
  rw [categoriesFill_authors, arxivIdFill_authors]
  have h1 : (fillSummary r.summary (fillDoi r.doi e)).authors = e.authors := by
    rw [fillSummary_authors, fillDoi_authors]
  have h2 : optBlank (fillSummary r.summary (fillDoi r.doi e)).authors = false := by
    rw [h1]; exact h
  rw [fillBlankAuthors_authors _ _ h2, h1]

theorem arxivFill_summary (r : ArxivResult) (e : Entry)
    (h : optBlank e.summary = false) :
    (arxivFill r e).summary = e.summary := by
  unfold arxivFill
  rw [categoriesFill_summary, arxivIdFill_summary, fillBlankAuthors_summary]
  have h1 : optTruthy (fillDoi r.doi e).summary = true := by
    rw [fillDoi_summary]; exact optBlank_false_truthy _ h
  rw [fillSummary_summary _ _ h1, fillDoi_summary]

theorem crossrefFill_authors (r : CrossrefSearchResult) (e : Entry)
    (h : optBlank e.authors = false) :
    (crossrefFill r e).authors = e.authors := by
  unfold crossrefFill
  rw [fillJournalRef_authors]
  have h1 : (fillSummary r.summary (fillDoi r.doi e)).authors = e.authors := by
    rw [fillSummary_authors, fillDoi_authors]
  have h2 : optBlank (fillSummary r.summary (fillDoi r.doi e)).authors = false := by
    rw [h1]; exact h
  rw [fillBlankAuthors_authors _ _ h2, h1]

theorem crossrefFill_summary (r : CrossrefSearchResult) (e : Entry)
    (h : optBlank e.summary = false) :
    (crossrefFill r e).summary = e.summary := by
  unfold crossrefFill
  rw [fillJournalRef_summary, fillBlankAuthors_summary]
  have h1 : optTruthy (fillDoi r.doi e).summary = true := by
    rw [fillDoi_summary]; exact optBlank_false_truthy _ h
  rw [fillSummary_summary _ _ h1, fillDoi_summary]

theorem enrichStepSearch_authors (env : Env) (e : Entry)
    (h : optBlank e.authors = false) :
    (enrichStepSearch env e).authors = e.authors := by
  unfold enrichStepSearch
  split
  · split
    · try dsimp only
      cases harx : env.arxivSearchTA (e.title.getD []) (e.authors.getD []) with
      | some r =>
        have h1 : optBlank (arxivFill r e).authors = false := by
          rw [arxivFill_authors r e h]; exact h
        split
        · cases hcr : env.crossrefSearchTA ((arxivFill r e).title.getD [])
              ((arxivFill r e).authors.getD []) with
          | some rc =>
            rw [crossrefFill_authors rc (arxivFill r e) h1, arxivFill_authors r e h]
          | none => exact arxivFill_authors r e h
        · exact arxivFill_authors r e h
      | none =>
        split
        · cases hcr : env.crossrefSearchTA (e.title.getD []) (e.authors.getD []) with
          | some rc => exact crossrefFill_authors rc e h
          | none => rfl
        · rfl
    · rfl
  · rfl

theorem enrichStepSearch_summary (env : Env) (e : Entry)
    (h : optBlank e.summary = false) :
    (enrichStepSearch env e).summary = e.summary := by
  unfold enrichStepSearch
  split
  · split
    · try dsimp only
      cases harx : env.arxivSearchTA (e.title.getD []) (e.authors.getD []) with
      | some r =>
        have h1 : optBlank (arxivFill r e).summary = false := by
          rw [arxivFill_summary r e h]; exact h
        split
        · cases hcr : env.crossrefSearchTA ((arxivFill r e).title.getD [])
              ((arxivFill r e).authors.getD []) with
          | some rc =>
            rw [crossrefFill_summary rc (arxivFill r e) h1, arxivFill_summary r e h]
          | none => exact arxivFill_summary r e h
        · exact arxivFill_summary r e h
      | none =>
        split
        · cases hcr : env.crossrefSearchTA (e.title.getD []) (e.authors.getD []) with
          | some rc => exact crossrefFill_summary rc e h
          | none => rfl
        · rfl
    · rfl
  · rfl

theorem enrichStepAuthorIds_authors (cfg : Config) (pa : List (Str × List Str)) (e : Entry) :
    (enrichStepAuthorIds cfg pa e).authors = e.authors := rfl

theorem enrichStepAuthorIds_summary (cfg : Config) (pa : List (Str × List Str)) (e : Entry) :
    (enrichStepAuthorIds cfg pa e).summary = e.summary := rfl

theorem enrichStepJournalRef_authors (cfg : Config) (env : Env) (e : Entry) :
    (enrichStepJournalRef cfg env e).authors = e.authors := by
  unfold enrichStepJournalRef
  repeat' split
  all_goals rfl

theorem enrichStepJournalRef_summary (cfg : Config) (env : Env) (e : Entry) :
    (enrichStepJournalRef cfg env e).summary = e.summary := by
  unfold enrichStepJournalRef
  repeat' split
  all_goals rfl

theorem enrichStepUrls_authors_fld (env : Env) (e : Entry) :
    (enrichStepUrls env e).authors = e.authors := by
  unfold enrichStepUrls
  try dsimp only
  repeat' split
  all_goals rfl

theorem enrichStepUrls_summary (env : Env) (e : Entry) :
    (enrichStepUrls env e).summary = e.summary := by
  unfold enrichStepUrls
  try dsimp only
  repeat' split
  all_goals rfl

theorem enrichStepFinalize_authors (cfg : Config) (e : Entry) :
    (enrichStepFinalize cfg e).authors = e.authors := by
  unfold enrichStepFinalize
  try dsimp only
  repeat' split
  all_goals rfl

theorem enrichStepFinalize_summary (cfg : Config) (e : Entry) :
    (enrichStepFinalize cfg e).summary = e.summary := by
  unfold enrichStepFinalize
  try dsimp only
  repeat' split
  all_goals rfl

/-- C4: enrichment never overwrites a non-blank authors string or abstract.
The persistent-id lookup and the fuzzy searches can only fill a field that
is still blank after the purely local steps: the enriched authors equal the
locally derived authors whenever those are non-blank, and the enriched
abstract equals the incoming abstract whenever it is non-blank.  (The
original claim, with the incoming authors in place of the locally derived
ones, is refuted by the counterexample below: the local normalization and
contributor-merge steps rewrite the authors string before any lookup.) -/
theorem C4_enrichment_no_overwrite (cfg : Config) (env : Env)
    (pa : List (Str × List Str)) (e : Entry) :
    (optBlank (localAuthors cfg e) = false →
        (enrichEntry cfg env pa e).authors = localAuthors cfg e)
    ∧ (optBlank e.summary = false →
        (enrichEntry cfg env pa e).summary = e.summary) := by
  constructor
  · intro h
    unfold localAuthors at h ⊢
    unfold enrichEntry
    rw [enrichStepFinalize_authors, enrichStepUrls_authors_fld, enrichStepJournalRef_authors,
        enrichStepAuthorIds_authors]
    have h1 := enrichStepCrossrefFetch_authors env _ h
    have h2 : optBlank (enrichStepCrossrefFetch env
        (enrichStepNormalize cfg (enrichStepOrcidMeta
          (enrichStepSeedAuthors cfg e)))).authors = false := by
      rw [h1]; exact h
    rw [enrichStepSearch_authors env _ h2, h1]
  · intro h
    unfold enrichEntry
    rw [enrichStepFinalize_summary, enrichStepUrls_summary, enrichStepJournalRef_summary,
        enrichStepAuthorIds_summary]
    have e3 : (enrichStepNormalize cfg (enrichStepOrcidMeta
        (enrichStepSeedAuthors cfg e))).summary = e.summary := by
      rw [enrichStepNormalize_summary, enrichStepOrcidMeta_summary,
          enrichStepSeedAuthors_summary]
    have h3 : optBlank (enrichStepNormalize cfg (enrichStepOrcidMeta
        (enrichStepSeedAuthors cfg e))).summary = false := by
      rw [e3]; exact h
    have h4 := enrichStepCrossrefFetch_summary env _ h3
    have h5 : optBlank (enrichStepCrossrefFetch env
        (enrichStepNormalize cfg (enrichStepOrcidMeta
          (enrichStepSeedAuthors cfg e)))).summary = false := by
      rw [h4]; exact h3
    rw [enrichStepSearch_summary env _ h5, h4, e3]

/-- C4 counterexample to the claim as stated: a record entering enrichment
with the non-empty authors string "J. Smith" leaves enrichment with a
different authors string, even under an oracle that returns nothing — the
local name normalization rewrites the registered variant to its canonical
form "John Smith". -/
theorem C4_enrichment_no_overwrite_cex :
    optBlank eC4.authors = false
      ∧ (enrichEntry cfgC4 emptyEnv [] eC4).authors ≠ eC4.authors := by decide

/-- C4 witness: at a concrete orcid record with non-blank authors and
abstract, under an oracle whose every lookup returns junk data, enrichment
keeps the locally derived authors and the incoming abstract. -/
theorem C4_enrichment_no_overwrite_witness :
    optBlank (localAuthors cfgC4 eC4b) = false
      ∧ optBlank eC4b.summary = false
      ∧ (enrichEntry cfgC4 envC4junk [] eC4b).authors = localAuthors cfgC4 eC4b
      ∧ (enrichEntry cfgC4 envC4junk [] eC4b).summary = eC4b.summary :=
  ⟨by decide, by decide,
   (C4_enrichment_no_overwrite cfgC4 envC4junk [] eC4b).1 (by decide),
   (C4_enrichment_no_overwrite cfgC4 envC4junk [] eC4b).2 (by decide)⟩

theorem enrichStepSeedAuthors_id (cfg : Config) (e : Entry) :
    (enrichStepSeedAuthors cfg e).id = e.id := by
  unfold enrichStepSeedAuthors
  repeat' split
  all_goals rfl

theorem orcidContribMerge_id (e : Entry) :
    (orcidContribMerge e).id = e.id := by
  unfold orcidContribMerge
  repeat' split
  all_goals rfl

theorem orcidCitationFill_id (e : Entry) :
    (orcidCitationFill e).id = e.id := by
  unfold orcidCitationFill
  try dsimp only
  repeat' split
  all_goals rfl

theorem enrichStepOrcidMeta_id (e : Entry) :
    (enrichStepOrcidMeta e).id = e.id := by
  unfold enrichStepOrcidMeta
  split
  · split
    · rw [orcidCitationFill_id, orcidContribMerge_id]
    · rfl
  · rfl

theorem enrichStepNormalize_id (cfg : Config) (e : Entry) :
    (enrichStepNormalize cfg e).id = e.id := by
  unfold enrichStepNormalize
  split
  all_goals rfl

theorem enrichStepCrossrefFetch_id (env : Env) (e : Entry) :
    (enrichStepCrossrefFetch env e).id = e.id := by
  unfold enrichStepCrossrefFetch
  try dsimp only
  repeat' split
  all_goals rfl

theorem fillDoi_id (d : Option Str) (e : Entry) :
    (fillDoi d e).id = e.id := by
  unfold fillDoi
  split
  all_goals rfl

theorem fillSummary_id (s : Option Str) (e : Entry) :
    (fillSummary s e).id = e.id := by
  unfold fillSummary
  split
  all_goals rfl

theorem fillBlankAuthors_id (a : Option Str) (e : Entry) :
    (fillBlankAuthors a e).id = e.id := by
  unfold fillBlankAuthors
  split
  all_goals rfl

theorem fillJournalRef_id (j : Option Str) (e : Entry) :
    (fillJournalRef j e).id = e.id := by
  unfold fillJournalRef
  split
  all_goals rfl

theorem arxivIdFill_id (rid : Option Str) (e : Entry) :
    (arxivIdFill rid e).id = e.id := by
  unfold arxivIdFill
  repeat' split
  all_goals rfl

theorem categoriesFill_id (cats : Option (List Str)) (e : Entry) :
    (categoriesFill cats e).id = e.id := by
  unfold categoriesFill
  repeat' split
  all_goals rfl

theorem arxivFill_id (r : ArxivResult) (e : Entry) :
    (arxivFill r e).id = e.id := by
  unfold arxivFill
  rw [categoriesFill_id, arxivIdFill_id, fillBlankAuthors_id, fillSummary_id, fillDoi_id]

theorem crossrefFill_id (r : CrossrefSearchResult) (e : Entry) :
    (crossrefFill r e).id = e.id := by
  unfold crossrefFill
  rw [fillJournalRef_id, fillBlankAuthors_id, fillSummary_id, fillDoi_id]

theorem enrichStepSearch_id (env : Env) (e : Entry) :
    (enrichStepSearch env e).id = e.id := by
  unfold enrichStepSearch
  split
  · split
    · try dsimp only
      cases harx : env.arxivSearchTA (e.title.getD []) (e.authors.getD []) with
      | some r =>
        split
        · cases hcr : env.crossrefSearchTA ((arxivFill r e).title.getD [])
              ((arxivFill r e).authors.getD []) with
          | some rc => rw [crossrefFill_id, arxivFill_id]
          | none => exact arxivFill_id r e
        · exact arxivFill_id r e
      | none =>
        split
        · cases hcr : env.crossrefSearchTA (e.title.getD []) (e.authors.getD []) with
          | some rc => exact crossrefFill_id rc e
          | none => rfl
        · rfl
    · rfl
  · rfl

theorem enrichStepAuthorIds_id (cfg : Config) (pa : List (Str × List Str)) (e : Entry) :
    (enrichStepAuthorIds cfg pa e).id = e.id := rfl

theorem enrichStepJournalRef_id (cfg : Config) (env : Env) (e : Entry) :
    (enrichStepJournalRef cfg env e).id = e.id := by
  unfold enrichStepJournalRef
  repeat' split
  all_goals rfl

theorem enrichStepUrls_id (env : Env) (e : Entry) :
    (enrichStepUrls env e).id = e.id := by
  unfold enrichStepUrls
  try dsimp only
  repeat' split
  all_goals rfl

theorem enrichStepFinalize_id (cfg : Config) (e : Entry) :
    (enrichStepFinalize cfg e).id = e.id := by
  unfold enrichStepFinalize
  try dsimp only
  repeat' split
  all_goals rfl

theorem enrichEntry_id (cfg : Config) (env : Env) (pa : List (Str × List Str)) (e : Entry) :
    (enrichEntry cfg env pa e).id = e.id := by
  unfold enrichEntry
  rw [enrichStepFinalize_id, enrichStepUrls_id, enrichStepJournalRef_id,
      enrichStepAuthorIds_id, enrichStepSearch_id, enrichStepCrossrefFetch_id,
      enrichStepNormalize_id, enrichStepOrcidMeta_id, enrichStepSeedAuthors_id]

theorem entryNormDoi_falsy (e : Entry) (h : optTruthy e.doi = false) :
    entryNormDoi e = none := by
  simp [entryNormDoi, h]

theorem flattenCommit_shape (st : FlattenState) (arr2 : List Entry) (aid : Option Str)
    (x : Entry) (h : st.seenDOIs = []) :
    ∃ si sd, flattenCommit st arr2 aid x = ⟨arr2, si, sd, st.out ++ [x]⟩ := by
  unfold flattenCommit
  cases hnd : entryNormDoi x with
  | some d =>
    rw [h]
    have hc : (!d.isEmpty && List.contains ([] : List Str) d) = false := by
      simp
    simp only [hc, Bool.false_eq_true, if_false]
    exact ⟨_, _, rfl⟩
  | none => exact ⟨_, _, rfl⟩

theorem titleGroup_self (k : Str) (l : List Nat) : titleGroup [(k, l)] k = l := by
  simp [titleGroup, List.find?]

theorem buildTitleMap_two (r : Str) (e1 e2 : Entry)
    (ht : titleKeyOf e1 = titleKeyOf e2) :
    buildTitleMap [(r, e1), (r, e2)] = [(titleKeyOf e1, [0, 1])] := by
  have ht2 : titleKeyOf e2 = titleKeyOf e1 := ht.symm
  simp [buildTitleMap, List.enum, List.enumFrom, List.find?, ht2]

theorem two_steps_keep_first (cfg : Config) (env : Env) (pa : List (Str × List Str))
    (r : Str) (e1 e2 : Entry)
    (ha1 : extractArxivId e1.id = none) (ha2 : extractArxivId e2.id = none)
    (hd2 : optTruthy e2.doi = false)
    (ht : titleKeyOf e1 = titleKeyOf e2)
    (hq2 : entryComplete e2 = false)
    (hkeep : flattenIsDup [(titleKeyOf e1, [0, 1])] ⟨[e1, e2], [], [], []⟩ 0 e1 = false) :
    ((flattenStep cfg env [(titleKeyOf e1, [0, 1])] pa
        (flattenStep cfg env [(titleKeyOf e1, [0, 1])] pa
          ⟨[e1, e2], [], [], []⟩ (0, r)) (1, r)).out).map (fun x => x.id) = [e1.id] := by
  have ht2 : titleKeyOf e2 = titleKeyOf e1 := ht.symm
  have hs1 : flattenStep cfg env [(titleKeyOf e1, [0, 1])] pa
      ⟨[e1, e2], [], [], []⟩ (0, r) =
      flattenCommit ⟨[e1, e2], [], [], []⟩
        ([e1, e2].set 0 (enrichEntry cfg env pa e1)) none
        (enrichEntry cfg env pa e1) := by
    simp [flattenStep, hkeep, ha1, List.get?]
  rw [hs1]
  obtain ⟨si, sd, hcom⟩ := flattenCommit_shape ⟨[e1, e2], [], [], []⟩
    ([e1, e2].set 0 (enrichEntry cfg env pa e1)) none
    (enrichEntry cfg env pa e1) rfl
  rw [hcom]
  simp only [List.set, List.nil_append]
  have hdup2 : flattenIsDup [(titleKeyOf e1, [0, 1])]
      ⟨[enrichEntry cfg env pa e1, e2], si, sd, [enrichEntry cfg env pa e1]⟩ 1 e2
      = true := by
    cases hqe : entryComplete (enrichEntry cfg env pa e1) <;>
      simp [flattenIsDup, ha2, entryNormDoi_falsy e2 hd2, titleGroup_self,
        ht2, hqe, hq2, List.get?]
  have hs2 : flattenStep cfg env [(titleKeyOf e1, [0, 1])] pa
      ⟨[enrichEntry cfg env pa e1, e2], si, sd, [enrichEntry cfg env pa e1]⟩ (1, r) =
      ⟨[enrichEntry cfg env pa e1, e2], si, sd, [enrichEntry cfg env pa e1]⟩ := by
    simp [flattenStep, hdup2, List.get?]
  rw [hs2]
  simp [enrichEntry_id]

theorem flatten_two_out (cfg : Config) (env : Env) (r : Str) (e1 e2 : Entry)
    (ha1 : extractArxivId e1.id = none) (ha2 : extractArxivId e2.id = none)
    (hd1 : optTruthy e1.doi = false) (hd2 : optTruthy e2.doi = false)
    (ht : titleKeyOf e1 = titleKeyOf e2)
    (hsafe : entryComplete e1 = false ∨ entryComplete e2 = false) :
    (mergePublicationsFlatten cfg env [(r, [e1, e2])]).map (fun x => x.id) =
      if entryComplete e1 = false ∧ entryComplete e2 = true then [e2.id] else [e1.id] := by
  have hred : mergePublicationsFlatten cfg env [(r, [e1, e2])] =
      (List.foldl
        (flattenStep cfg env (buildTitleMap [(r, e1), (r, e2)])
          (buildPubAuthors [(r, e1), (r, e2)]))
        ⟨[e1, e2], [], [], []⟩ [(0, r), (1, r)]).out := rfl
  rw [hred, buildTitleMap_two r e1 e2 ht]
  generalize buildPubAuthors [(r, e1), (r, e2)] = pa
  rw [List.foldl_cons, List.foldl_cons, List.foldl_nil]
  have ht2 : titleKeyOf e2 = titleKeyOf e1 := ht.symm
  cases hq1 : entryComplete e1 with
  | false =>
    cases hq2 : entryComplete e2 with
    | true =>
      rw [if_pos ⟨rfl, rfl⟩]
      have hdup1 : flattenIsDup [(titleKeyOf e1, [0, 1])] ⟨[e1, e2], [], [], []⟩ 0 e1
          = true := by
        simp [flattenIsDup, ha1, entryNormDoi_falsy e1 hd1, titleGroup_self,
          hq1, hq2, List.get?]
      have hs1 : flattenStep cfg env [(titleKeyOf e1, [0, 1])] pa
          ⟨[e1, e2], [], [], []⟩ (0, r) = ⟨[e1, e2], [], [], []⟩ := by
        simp [flattenStep, hdup1, List.get?]
      rw [hs1]
      have hdup2 : flattenIsDup [(titleKeyOf e1, [0, 1])] ⟨[e1, e2], [], [], []⟩ 1 e2
          = false := by
        simp [flattenIsDup, ha2, entryNormDoi_falsy e2 hd2, titleGroup_self,
          ht2, hq1, hq2, List.get?]
      have hs2 : flattenStep cfg env [(titleKeyOf e1, [0, 1])] pa
          ⟨[e1, e2], [], [], []⟩ (1, r) =
          flattenCommit ⟨[e1, e2], [], [], []⟩
            ([e1, e2].set 1 (enrichEntry cfg env pa e2)) none
            (enrichEntry cfg env pa e2) := by
        simp [flattenStep, hdup2, ha2, List.get?]
      rw [hs2]
      obtain ⟨si, sd, hcom⟩ := flattenCommit_shape ⟨[e1, e2], [], [], []⟩
        ([e1, e2].set 1 (enrichEntry cfg env pa e2)) none
        (enrichEntry cfg env pa e2) rfl
      rw [hcom]
      simp [enrichEntry_id]
    | false =>
      rw [if_neg (by simp)]
      have hkeep : flattenIsDup [(titleKeyOf e1, [0, 1])] ⟨[e1, e2], [], [], []⟩ 0 e1
          = false := by
        simp [flattenIsDup, ha1, entryNormDoi_falsy e1 hd1, titleGroup_self,
          hq1, hq2, List.get?]
      exact two_steps_keep_first cfg env pa r e1 e2 ha1 ha2 hd2 ht hq2 hkeep
  | true =>
    rcases hsafe with hf | hq2
    · rw [hq1] at hf
      exact absurd hf (by simp)
    · rw [if_neg (by simp [hq2])]
      have hkeep : flattenIsDup [(titleKeyOf e1, [0, 1])] ⟨[e1, e2], [], [], []⟩ 0 e1
          = false := by
        simp [flattenIsDup, ha1, entryNormDoi_falsy e1 hd1, titleGroup_self,
          hq1, hq2, List.get?]
      exact two_steps_keep_first cfg env pa r e1 e2 ha1 ha2 hd2 ht hq2 hkeep

/-- C3: within a two-candidate title group (no arXiv accession, falsy
DOIs), when exactly one candidate is complete the merge keeps the complete
one and discards the other, for both orderings of the input; when neither
is complete the first-seen candidate survives.  (For identity groups formed
by a shared DOI the completeness tie-break does not apply: the survivor is
the first-seen record regardless of abstracts, as the counterexample
shows.) -/
theorem C3_completeness_tiebreak (cfg : Config) (env : Env) (r : Str) (e1 e2 : Entry)
    (ht : titleKeyOf e1 = titleKeyOf e2)
    (ha1 : extractArxivId e1.id = none) (ha2 : extractArxivId e2.id = none)
    (hd1 : optTruthy e1.doi = false) (hd2 : optTruthy e2.doi = false)
    (hc1 : entryComplete e1 = false) :
    (entryComplete e2 = true →
        (mergePublicationsFlatten cfg env [(r, [e1, e2])]).map (fun x => x.id) = [e2.id]
        ∧ (mergePublicationsFlatten cfg env [(r, [e2, e1])]).map (fun x => x.id) = [e2.id])
    ∧ (entryComplete e2 = false →
        (mergePublicationsFlatten cfg env [(r, [e1, e2])]).map (fun x => x.id) = [e1.id]
        ∧ (mergePublicationsFlatten cfg env [(r, [e2, e1])]).map (fun x => x.id) = [e2.id]) := by
  constructor
  · intro hc2
    constructor
    · have h := flatten_two_out cfg env r e1 e2 ha1 ha2 hd1 hd2 ht (Or.inl hc1)
      rw [h, if_pos ⟨hc1, hc2⟩]
    · have h := flatten_two_out cfg env r e2 e1 ha2 ha1 hd2 hd1 ht.symm (Or.inr hc1)
      rw [h, if_neg (by simp [hc2])]
  · intro hc2
    constructor
    · have h := flatten_two_out cfg env r e1 e2 ha1 ha2 hd1 hd2 ht (Or.inl hc1)
      rw [h, if_neg (by simp [hc2])]
    · have h := flatten_two_out cfg env r e2 e1 ha2 ha1 hd2 hd1 ht.symm (Or.inl hc2)
      rw [h, if_neg (by simp [hc1])]

/-- C3 witness: on a concrete incomplete record and a concrete complete
record under the same title, the complete one survives in both input
orders. -/
theorem C3_completeness_tiebreak_witness :
    titleKeyOf eC3 = titleKeyOf eD3
      ∧ entryComplete eC3 = false ∧ entryComplete eD3 = true
      ∧ (mergePublicationsFlatten emptyConfig emptyEnv
          [(str "1", [eC3, eD3])]).map (fun x => x.id) = [eD3.id]
      ∧ (mergePublicationsFlatten emptyConfig emptyEnv
          [(str "1", [eD3, eC3])]).map (fun x => x.id) = [eD3.id] :=
  ⟨by decide, by decide, by decide,
   ((C3_completeness_tiebreak emptyConfig emptyEnv (str "1") eC3 eD3 (by decide)
      (by decide) (by decide) (by decide) (by decide) (by decide)).1 (by decide)).1,
   ((C3_completeness_tiebreak emptyConfig emptyEnv (str "1") eC3 eD3 (by decide)
      (by decide) (by decide) (by decide) (by decide) (by decide)).1 (by decide)).2⟩
